import Mathlib

/-!
Code regeneration in `force`: the marshaler of `marshal.go`.

A shallow embedding of `MarshalCode`, `Marshaler`, `Unquoter`, `FnCall` and the
reflection helpers of `src/marshal.go`, followed by theorems about them.

Go values of static type `interface{}` are the constructors of `Value`.  Go
functions returning `(result, error)` return an `Outcome`; the calls of `Eval`
and `MarshalCode` methods that the marshaler makes on values whose code is not
part of `marshal.go` are recorded, in call order, in the `World`.  `MarshalCode`
is generally recursive in Go (an `Expression` may evaluate to anything), so the
embedding bounds the depth of nested `MarshalCode` calls by a fuel argument and
reports exhaustion as an outcome of its own.
-/

namespace Force

/-! ## Errors of `github.com/gravitational/trace` -/

/-- The error classes of the `trace` package that this code base raises. -/
inductive ErrorKind where
  | badParameter
  | notImplemented
  | notFound
  | alreadyExists
  | connectionProblem
  | eof
  | other
  deriving DecidableEq, Repr

/-- An error value: its `trace` class and its message. -/
structure Error where
  kind : ErrorKind
  msg : String
  deriving DecidableEq, Repr

/-- The `trace.BadParameter(msg)` constructor. -/
def trace.BadParameter (msg : String) : Error := ⟨.badParameter, msg⟩

/-- The `trace.NotImplemented(msg)` constructor. -/
def trace.NotImplemented (msg : String) : Error := ⟨.notImplemented, msg⟩

/-- The `trace.NotFound(msg)` constructor. -/
def trace.NotFound (msg : String) : Error := ⟨.notFound, msg⟩

/-- The `trace.AlreadyExists(msg)` constructor. -/
def trace.AlreadyExists (msg : String) : Error := ⟨.alreadyExists, msg⟩

/-- The `trace.IsAlreadyExists(err)` test. -/
def trace.IsAlreadyExists (err : Error) : Bool := err.kind == .alreadyExists

/-- The `trace.IsEOF(err)` test on a Go `error`, nil being `none`. -/
def trace.IsEOF (err : Option Error) : Bool :=
  match err with
  | none => false
  | some e => e.kind == .eof

/-- The `trace.Wrap(err)` call: it attaches the call site to `err` and keeps the class
and the message, which is all an `Error` records. -/
def trace.Wrap (err : Error) : Error := err

/-- The `trace.IsBadParameter(err)` test. -/
def trace.IsBadParameter (err : Error) : Bool := err.kind == .badParameter

/-- The `trace.IsNotImplemented(err)` test. -/
def trace.IsNotImplemented (err : Error) : Bool := err.kind == .notImplemented

/-! ## Execution context, effects and outcomes -/

/-- Modelled from the spec: the `ExecutionContext` interface is declared outside
`marshal.go`; the spec describes it as a string-keyed store of variables.  The marshaler
never inspects it and only hands it on. -/
structure ExecutionContext where
  vars : List (String × String)
  deriving DecidableEq, Repr

/-- A call into code that is not part of the source files at hand: a method of a value
defined elsewhere, the network, the remote side, the `Parallel` combinator. -/
inductive Event where
  /-- The `Eval` method of the expression with this identity was invoked. -/
  | eval (id : Nat)
  /-- The `MarshalCode` method of the code marshaler with this identity was invoked. -/
  | marshalCode (id : Nat)
  /-- A connection to this host was dialed. -/
  | dial (host : String)
  /-- The connection of the client with this identity was closed. -/
  | close (client : Nat)
  /-- This shell command was run on the remote side (`Session.Run`). -/
  | remoteCmd (cmd : String)
  /-- The action `Parallel` built from per-host sequences for these hosts was run. -/
  | parallel (hosts : List String)
  deriving DecidableEq, Repr

/-- The effects performed so far, oldest first. -/
structure World where
  events : List Event
  deriving DecidableEq, Repr

/-- Record one more event. -/
def World.record (w : World) (e : Event) : World := ⟨w.events ++ [e]⟩

/-- How often the expression `id` has been evaluated. -/
def World.evalCount (w : World) (id : Nat) : Nat := w.events.count (.eval id)

/-- The ways a Go call can fail to return. -/
inductive NoReturn where
  /-- The nesting bound of the embedding was reached. -/
  | outOfFuel
  /-- A run-time panic. -/
  | panic
  deriving DecidableEq, Repr

/-- The outcome of a Go call of result type `(α, error)` started in some world. -/
inductive Outcome (α : Type) where
  /-- The call returned `(val, nil)`. -/
  | ok (val : α) (w : World)
  /-- The call returned a non-nil error; the result next to it is nil (the empty string
  for the two `Eval` methods of `marshal.go`) and carries nothing. -/
  | fail (err : Error) (w : World)
  /-- The call did not return. -/
  | noReturn (why : NoReturn)
  deriving DecidableEq

/-! ## Values -/

/-- What `reflect` knows of a field type: `Name()` and `PkgPath()`. -/
structure TypeRef where
  name : String
  pkgPath : String
  deriving DecidableEq, Repr

/-- A `reflect.StructField`: its name, the value of its `code` tag, its type, and whether
the field is exported (its `PkgPath` is empty).  The value of a field that is not exported
cannot be boxed: `Value.Interface` panics on it. -/
structure StructField where
  name : String
  codeTag : String
  type : TypeRef
  exported : Bool
  deriving DecidableEq, Repr

/-- A `reflect.Type`, as far as `marshal.go` inspects one. -/
inductive RType where
  /-- Kind `Struct`: `Name()`, `PkgPath()`, the fields in declaration order, which are what
  `NumField` and `Field(i)` enumerate, and the fields that the embedded structs promote, in
  the order in which `FieldByName` tries them after the declared ones (a name that is
  ambiguous at its depth is not promoted and is not in the list). -/
  | struct (name pkgPath : String) (fields promoted : List StructField)
  /-- Kind `Ptr` with its `Elem()`. -/
  | ptr (elem : RType)
  /-- Kind `Interface`: `Name()`, `PkgPath()` and `String()`, the text that the verb `%T`
  prints for the type. -/
  | iface (name pkgPath str : String)
  /-- Any other kind. -/
  | other (name pkgPath : String)
  deriving DecidableEq, Repr

/-- The field `Fn` of a `FnCall`, a value of type `interface{}`, by what `FunctionName`
reads from it. -/
inductive FnRef where
  /-- The nil interface: `reflect.ValueOf` gives the zero `Value`. -/
  | nil
  /-- A function; `symbol` is the name that `runtime.FuncForPC` reports for its code
  pointer. -/
  | func (symbol : String)
  /-- A value of kind `Chan`, `Map`, `Ptr`, `Slice` or `UnsafePointer`, or a nil function:
  `Pointer()` returns an address at which `runtime.FuncForPC` finds no function. -/
  | pointer
  /-- A value of a kind on which `Pointer()` panics, as a number or a struct is, and a
  string in the Go releases the repository was written for.  The argument is how `%T`
  prints the type. -/
  | other (goType : String)
  deriving DecidableEq, Repr

/-- A Go value boxed in `interface{}`, by the dynamic types `MarshalCode` tells apart. -/
inductive Value where
  /-- The nil interface. -/
  | nil
  | bool (b : Bool)
  | int (n : Int)
  | str (s : String)
  /-- A `[]string`. -/
  | strings (xs : List String)
  /-- A `*Marshaler` with its `node`. -/
  | marshaler (node : Value)
  /-- An `*Unquoter` with its `node`. -/
  | unquoter (node : Value)
  /-- A `*FnCall`: `Package`, `Fn`, `FnName` and `Args`. -/
  | fnCall (Package : String) (Fn : FnRef) (FnName : String) (Args : List Value)
  /-- A value of a type defined elsewhere that implements `CodeMarshaler`, and
  `Expression` too when `eval` is present. -/
  | codeMarshaler (id : Nat) (marshal : ExecutionContext → World → Outcome String)
      (eval : Option (ExecutionContext → World → Outcome Value))
  /-- A value of a type defined elsewhere that implements `Expression` and not
  `CodeMarshaler`. -/
  | expression (id : Nat) (eval : ExecutionContext → World → Outcome Value)
  /-- A `[]StringVar`. -/
  | stringVars (xs : List Value)
  /-- A value of another slice type, with its element type. -/
  | slice (elem : RType) (elems : List Value)
  /-- A struct value: its type and its field values, in declaration order. -/
  | struct (t : RType) (vals : List Value)
  /-- Anything else; `goType` is how `%T` prints its type. -/
  | other (goType : String)

instance : Inhabited Value := ⟨.nil⟩

/-- The `FnCall` struct of `marshal.go`. -/
structure FnCall where
  /-- Package is a package name. -/
  Package : String
  /-- Fn is a function, the name will be extracted from it.  The field has type
  `interface{}` and holds whatever the caller stored. -/
  Fn : FnRef
  /-- FnName is a function name, used instead of Fn if specified. -/
  FnName : String
  /-- Args is the list of arguments to the function. -/
  Args : List Value

/-- Box a `*FnCall`. -/
def FnCall.toValue (f : FnCall) : Value := .fnCall f.Package f.Fn f.FnName f.Args

/-- Constants and tables that `marshal.go` uses and that are declared elsewhere. -/
structure Env where
  /-- The table part of `unicode.IsPrint`, for runes above `0xFF`. -/
  isPrintWide : Char → Bool
  /-- The constant `metadataFieldName`. -/
  metadataFieldName : String

/-! ## Go library functions used by `marshal.go` -/

/-- The verb `%t` of `fmt.Sprintf`. -/
def fmt.Sprintf_t (val : Bool) : String := if val then "true" else "false"

/-- The verb `%d` of `fmt.Sprintf` on an `int`: the decimal digits, after a minus sign
when the number is negative. -/
def fmt.Sprintf_d (val : Int) : String :=
  match val with
  | .ofNat n => String.mk (Nat.toDigits 10 n)
  | .negSucc n => String.mk ('-' :: Nat.toDigits 10 (n + 1))

/-- The digit table `lowerhex` of `strconv`. -/
def strconv.lowerhex (d : Nat) : Char := Nat.digitChar (d % 16)

/-- The function `strconv.IsPrint`: the Latin-1 fast path is spelled out, the tables for
the other runes are taken from the environment. -/
def strconv.IsPrint (env : Env) (r : Char) : Bool :=
  if r.toNat ≤ 0xFF then
    if 0x20 ≤ r.toNat ∧ r.toNat ≤ 0x7E then true
    else if 0xA1 ≤ r.toNat ∧ r.toNat ≤ 0xFF then r.toNat != 0xAD
    else false
  else env.isPrintWide r

/-- The function `appendEscapedRune` of `strconv` for the quote character `"`, without the
ASCII-only and graphic-only modes: the text that stands for one rune. -/
def strconv.escapedRune (env : Env) (r : Char) : List Char :=
  if r = '"' ∨ r = '\\' then ['\\', r]
  else if strconv.IsPrint env r then [r]
  else if r = '\x07' then ['\\', 'a']
  else if r = '\x08' then ['\\', 'b']
  else if r = '\x0c' then ['\\', 'f']
  else if r = '\n' then ['\\', 'n']
  else if r = '\r' then ['\\', 'r']
  else if r = '\t' then ['\\', 't']
  else if r = '\x0b' then ['\\', 'v']
  else if r.toNat < 0x20 ∨ r.toNat = 0x7f then
    ['\\', 'x', strconv.lowerhex (r.toNat / 16), strconv.lowerhex r.toNat]
  else if r.toNat < 0x10000 then
    ['\\', 'u', strconv.lowerhex (r.toNat / 4096), strconv.lowerhex (r.toNat / 256),
      strconv.lowerhex (r.toNat / 16), strconv.lowerhex r.toNat]
  else
    ['\\', 'U', strconv.lowerhex (r.toNat / 268435456), strconv.lowerhex (r.toNat / 16777216),
      strconv.lowerhex (r.toNat / 1048576), strconv.lowerhex (r.toNat / 65536),
      strconv.lowerhex (r.toNat / 4096), strconv.lowerhex (r.toNat / 256),
      strconv.lowerhex (r.toNat / 16), strconv.lowerhex r.toNat]

/-- The function `strconv.Quote`, which is what the verb `%q` of `fmt.Sprintf` prints for a
string: a double quote, the escaped runes, a double quote.  A `String` is a sequence of
runes, so the strings covered are the ones that are valid UTF-8. -/
def strconv.Quote (env : Env) (s : String) : String :=
  String.mk ('"' :: (s.data.flatMap (strconv.escapedRune env) ++ ['"']))

/-- The function `filepath.Base`: the last element of a slash-separated path. -/
def filepath.Base (path : String) : String :=
  if path = "" then "."
  else
    let stripped := (path.data.reverse.dropWhile (· == '/')).reverse
    let last := (stripped.reverse.takeWhile (· != '/')).reverse
    if last = [] then "/" else String.mk last

/-- The function `filepath.Ext`: the suffix of the last path element that starts at its
final dot, or the empty string. -/
def filepath.Ext (path : String) : String :=
  let elem := path.data.reverse.takeWhile (· != '/')
  if elem.contains '.' then String.mk ('.' :: (elem.takeWhile (· != '.')).reverse) else ""

/-- The function `strings.TrimPrefix`. -/
def strings.TrimPrefix (s pre : String) : String :=
  if pre.data.isPrefixOf s.data then String.mk (s.data.drop pre.data.length) else s

/-- The function `strings.TrimSuffix`. -/
def strings.TrimSuffix (s suf : String) : String :=
  if suf.data.isSuffixOf s.data then String.mk (s.data.take (s.data.length - suf.data.length))
  else s

/-! ## Reflection helpers of `marshal.go` -/

/-- The method `Name()` of a `reflect.Type`; pointer types have no name. -/
def RType.Name : RType → String
  | .struct name _ _ _ => name
  | .ptr _ => ""
  | .iface name _ _ => name
  | .other name _ => name

/-- The method `PkgPath()` of a `reflect.Type`; pointer types have none. -/
def RType.PkgPath : RType → String
  | .struct _ pkgPath _ _ => pkgPath
  | .ptr _ => ""
  | .iface _ pkgPath _ => pkgPath
  | .other _ pkgPath => pkgPath

/-- The method `FieldByName(name)` of a `reflect.Type`: the field of that name and whether
there is one.  A field declared in the struct itself is found first; failing that, the
method looks through the fields that embedded structs promote.  On a type that is not of
kind `Struct` the method panics, which is the outer `none`. -/
def RType.FieldByName (t : RType) (name : String) : Option (Option StructField) :=
  match t with
  | .struct _ _ fields promoted =>
    match fields.find? (fun f => f.name == name) with
    | some field => some (some field)
    | none => some (promoted.find? (fun f => f.name == name))
  | _ => none

/-- The package path of the core package, `reflect.TypeOf(Spec{}).PkgPath()`: the import
path under which `scp.go` imports the package of `marshal.go`. -/
def corePkgPath : String := "github.com/gravitational/force"

/-- The run-time symbol of the function `Strings` of the core package. -/
def StringsSymbol : String := "github.com/gravitational/force.Strings"

/-- StructName returns struct name (`none` when `FieldByName` panics). -/
def StructName (env : Env) (t : RType) : Option String :=
  let t := match t with
    | .ptr elem => elem
    | t => t
  let name := t.Name
  if name != "" then some name
  else
    match t.FieldByName env.metadataFieldName with
    | none => none
    | some none => some ""
    | some (some field) => some field.type.name

/-- StructPackageName returns originating package name of this struct (`none` when
`FieldByName` panics). -/
def StructPackageName (env : Env) (t : RType) : Option String :=
  match t.FieldByName env.metadataFieldName with
  | none => none
  | some none =>
    if t.PkgPath != corePkgPath then some (filepath.Base t.PkgPath) else some ""
  | some (some field) => some (filepath.Base field.type.pkgPath)

/-- The text `runtime.FuncForPC(reflect.ValueOf(i).Pointer()).Name()`.  `Pointer()` panics
on the zero `Value`, which `reflect.ValueOf(nil)` is, and on a value of a kind that has no
pointer, which is `none`; where no function starts at the address, `FuncForPC` returns nil
and the method `Name` of a nil `*Func` returns the empty string. -/
def FnRef.fullPath (i : FnRef) : Option String :=
  match i with
  | .nil => none
  | .func symbol => some symbol
  | .pointer => some ""
  | .other _ => none

/-- FunctionName returns function name: the extension of the run-time symbol of the
function value, without its leading dot and without a trailing `-fm` (`none` when
`reflect` panics). -/
def FunctionName (i : FnRef) : Option String :=
  match i.fullPath with
  | none => none
  | some fullPath =>
    some (strings.TrimSuffix (strings.TrimPrefix (filepath.Ext fullPath) ".") "-fm")

/-! ## The marshaler -/

/-- The type of the package-level function `MarshalCode`, as the methods that call it
back receive it. -/
abbrev MarshalFn := ExecutionContext → Value → World → Outcome String

/-- The loop `for i := 0; i < len(xs); i++` that `FnCall.MarshalCode` (with `sep = ", "`)
and the slice-of-structs case of `MarshalCode` (with `sep = ","`) run: before every item
but the first the separator is written, then the item is marshaled and written; the first
error ends the loop and is returned in place of the buffer. -/
def writeItems (rec : MarshalFn) (ctx : ExecutionContext) (sep : String) :
    Nat → List Value → String → World → Outcome String
  | _, [], buf, w => .ok buf w
  | i, x :: rest, buf, w =>
    let buf := if i != 0 then buf ++ sep else buf
    match rec ctx x w with
    | .ok data w => writeItems rec ctx sep (i + 1) rest (buf ++ data) w
    | .fail err w => .fail (trace.Wrap err) w
    | .noReturn why => .noReturn why

/-- MarshalCode marshals object to code. -/
def FnCall.MarshalCode (rec : MarshalFn) (ctx : ExecutionContext) (f : FnCall) (w : World) :
    Outcome String :=
  let buf := ""
  let buf := if f.Package != "" && f.Package != "." then buf ++ (f.Package ++ ".") else buf
  let name := if f.FnName == "" then FunctionName f.Fn else some f.FnName
  match name with
  | none => .noReturn .panic
  | some name =>
    let buf := buf ++ name
    let buf := buf ++ "("
    match writeItems rec ctx ", " 0 f.Args buf w with
    | .ok buf w => .ok (buf ++ ")") w
    | .fail err w => .fail err w
    | .noReturn why => .noReturn why

/-- The method `(*Marshaler).MarshalCode`. -/
def Marshaler.MarshalCode (rec : MarshalFn) (ctx : ExecutionContext) (node : Value)
    (w : World) : Outcome String :=
  match rec ctx node w with
  | .ok data w => .ok data w
  | .fail err w => .fail (trace.Wrap err) w
  | .noReturn why => .noReturn why

/-- Eval returns code representation of the expression without evaluating it. -/
def Marshaler.Eval (rec : MarshalFn) (ctx : ExecutionContext) (node : Value) (w : World) :
    Outcome Value :=
  match rec ctx node w with
  | .ok data w => .ok (.str data) w
  | .fail err w => .fail (trace.Wrap err) w
  | .noReturn why => .noReturn why

/-- The method `(*Unquoter).Eval`. -/
def Unquoter.Eval (_ctx : ExecutionContext) (_node : Value) (w : World) : Outcome Value :=
  .fail (trace.BadParameter "unquote can not be evaluated") w

/-- The test `v == nil` on a value of type `interface{}`. -/
def Value.isNil : Value → Bool
  | .nil => true
  | _ => false

/-- Whether a value implements `Expression`. -/
def Value.isExpression : Value → Bool
  | .marshaler _ => true
  | .unquoter _ => true
  | .codeMarshaler _ _ (some _) => true
  | .expression _ _ => true
  | _ => false

/-- Whether a value implements `CodeMarshaler`. -/
def Value.isCodeMarshaler : Value → Bool
  | .marshaler _ => true
  | .unquoter _ => true
  | .fnCall _ _ _ _ => true
  | .codeMarshaler _ _ _ => true
  | _ => false

/-- The call `e.Eval(ctx)` on a value of static type `Expression`, by dynamic type.  A
call of a method defined elsewhere is recorded.  The nil interface panics; the other
values do not implement `Expression` and Go's typing keeps them out. -/
def Expression.Eval (rec : MarshalFn) (ctx : ExecutionContext) (e : Value) (w : World) :
    Outcome Value :=
  match e with
  | .marshaler node => Marshaler.Eval rec ctx node w
  | .unquoter node => Unquoter.Eval ctx node w
  | .codeMarshaler id _ (some eval) => eval ctx (w.record (.eval id))
  | .expression id eval => eval ctx (w.record (.eval id))
  | _ => .noReturn .panic

/-- MarshalCode marshals code (the method of `*Unquoter`). -/
def Unquoter.MarshalCode (rec : MarshalFn) (ctx : ExecutionContext) (node : Value)
    (w : World) : Outcome String :=
  match Expression.Eval rec ctx node w with
  | .ok out w => rec ctx out w
  | .fail err w => .fail (trace.Wrap err) w
  | .noReturn why => .noReturn why

/-- The loop over the fields of a struct in `MarshalCode`.  Every field is boxed first,
`v.Field(i).Interface()`, which panics when the field is not exported.  A field whose value
is nil, whose `code` tag is `-` or whose name is the metadata field name is skipped; before
every emitted field but the first a comma is written, then `name:` and the marshaled
value. -/
def writeFields (env : Env) (rec : MarshalFn) (ctx : ExecutionContext) :
    List (StructField × Value) → Nat → String → World → Outcome String
  | [], _, buf, w => .ok buf w
  | (fieldType, fieldVal) :: rest, fieldCount, buf, w =>
    if !fieldType.exported then .noReturn .panic
    else if fieldVal.isNil || fieldType.codeTag == "-" ||
        fieldType.name == env.metadataFieldName then
      writeFields env rec ctx rest fieldCount buf w
    else
      let fieldCount := fieldCount + 1
      let buf := if fieldCount > 1 then buf ++ "," else buf
      let buf := buf ++ fieldType.name
      let buf := buf ++ ":"
      match rec ctx fieldVal w with
      | .ok data w => writeFields env rec ctx rest fieldCount (buf ++ data) w
      | .fail err w => .fail (trace.Wrap err) w
      | .noReturn why => .noReturn why

/-- The text `[package.]Type` that `MarshalCode` writes for a struct type: the package
name and a dot unless the package name is empty, then the struct name. -/
def writeTypeName (env : Env) (t : RType) (buf : String) : Option String :=
  match StructPackageName env t with
  | none => none
  | some packageName =>
    let buf := if packageName != "" then buf ++ (packageName ++ ".") else buf
    match StructName env t with
    | none => none
    | some name => some (buf ++ name)

/-- The body of the package-level function `MarshalCode`; `rec` is the function itself,
for its nested calls. -/
def MarshalCodeBody (env : Env) (rec : MarshalFn) (ctx : ExecutionContext) (iface : Value)
    (w : World) : Outcome String :=
  match iface with
  | .nil => .fail (trace.BadParameter "nil was a mistake") w
  | .bool val => .ok (fmt.Sprintf_t val) w
  | .int val => .ok (fmt.Sprintf_d val) w
  | .str val => .ok (strconv.Quote env val) w
  | .strings val =>
    FnCall.MarshalCode rec ctx ⟨"", .func StringsSymbol, "", val.map .str⟩ w
  | .marshaler node => Marshaler.MarshalCode rec ctx node w
  | .unquoter node => Unquoter.MarshalCode rec ctx node w
  | .fnCall pkg fn fnName args => FnCall.MarshalCode rec ctx ⟨pkg, fn, fnName, args⟩ w
  | .codeMarshaler id marshal _ => marshal ctx (w.record (.marshalCode id))
  | .expression id eval =>
    match eval ctx (w.record (.eval id)) with
    | .ok i w => rec ctx i w
    | .fail err w => .fail (trace.Wrap err) w
    | .noReturn why => .noReturn why
  | .stringVars val => FnCall.MarshalCode rec ctx ⟨"", .func StringsSymbol, "", val⟩ w
  | .slice elem elems =>
    match elem with
    | .struct _ _ _ _ =>
      match writeTypeName env elem "[]" with
      | none => .noReturn .panic
      | some buf =>
        match writeItems rec ctx "," 0 elems (buf ++ "\x7b") w with
        | .ok buf w => .ok (buf ++ "\x7d") w
        | .fail err w => .fail err w
        | .noReturn why => .noReturn why
    | .iface name pkgPath str =>
      if name == "StringVar" && pkgPath == corePkgPath then
        FnCall.MarshalCode rec ctx ⟨"", .func StringsSymbol, "", elems⟩ w
      else
        .fail (trace.NotImplemented ("*" ++ str ++ " is not implemented yet")) w
    | _ => .fail (trace.NotImplemented "not implemented") w
  | .struct t vals =>
    match t with
    | .struct _ _ fields _ =>
      match writeTypeName env t "" with
      | none => .noReturn .panic
      | some buf =>
        match writeFields env rec ctx (fields.zip vals) 0 (buf ++ "\x7b") w with
        | .ok buf w => .ok (buf ++ "\x7d") w
        | .fail err w => .fail err w
        | .noReturn why => .noReturn why
    | _ => .fail (trace.BadParameter "don't know how to marshal a value of this type") w
  | .other goType => .fail (trace.BadParameter ("don't know how to marshal " ++ goType)) w

/-- MarshalCode marshals parsed types into representation that could be interpreted by
Force interpreter.  The first argument bounds the depth of nested `MarshalCode` calls. -/
def MarshalCode (env : Env) : Nat → MarshalFn
  | 0 => fun _ _ _ => .noReturn .outOfFuel
  | fuel + 1 => MarshalCodeBody env (MarshalCode env fuel)

/-- Marshal marshals expression to its code representation without evaluating it (unless
some parts of the expression are unquoted using Unquote). -/
def Marshal (node : Value) : Value := .marshaler node

/-- Unquote evaluates the argument first, and then returns code representation of the
returned result. -/
def Unquote (node : Value) : Value := .unquoter node

/-- NewFnCall returns new FnCall instance. -/
def NewFnCall (fn : FnRef) (args : List Value) : FnCall :=
  { Package := "", Fn := fn, FnName := "", Args := args }

/-! ## Reading the outcomes -/

/-- The outcome of marshaling the items of a list one after the other, each in the world
the one before it left: the texts in order, or the first failure. -/
def marshalEach (rec : MarshalFn) (ctx : ExecutionContext) :
    List Value → World → Outcome (List String)
  | [], w => .ok [] w
  | x :: rest, w =>
    match rec ctx x w with
    | .ok data w =>
      match marshalEach rec ctx rest w with
      | .ok texts w => .ok (data :: texts) w
      | .fail err w => .fail err w
      | .noReturn why => .noReturn why
    | .fail err w => .fail err w
    | .noReturn why => .noReturn why

/-- The text `sep ++ d` for every `d` of a list, concatenated. -/
def sepBefore (sep : String) : List String → String
  | [] => ""
  | d :: ds => sep ++ d ++ sepBefore sep ds

/-- The package qualifier that `FnCall.MarshalCode` writes. -/
def FnCall.qualifier (f : FnCall) : String :=
  if f.Package = "" ∨ f.Package = "." then "" else f.Package ++ "."

/-- The fields that the struct case of `MarshalCode` leaves out: the value is nil, the
`code` tag is `-`, or the field is the metadata field. -/
def fieldExcluded (env : Env) (p : StructField × Value) : Bool :=
  p.2.isNil || p.1.codeTag == "-" || p.1.name == env.metadataFieldName

/-- The fields of a struct value that are not left out, in declaration order. -/
def emittedFields (env : Env) (fields : List StructField) (vals : List Value) :
    List (StructField × Value) :=
  (fields.zip vals).filter (fun p => !fieldExcluded env p)

/-- The `name:value` texts of the emitted fields, given the texts of their values. -/
def fieldPairs (emitted : List (StructField × Value)) (texts : List String) : List String :=
  List.zipWith (fun p text => p.1.name ++ ":" ++ text) emitted texts

/-- An environment for concrete runs: every rune above `0xFF` counts as printable and the
metadata field is called `Metadata`. -/
def exampleEnv : Env := ⟨fun _ => true, "Metadata"⟩

/-- The empty execution context. -/
def emptyCtx : ExecutionContext := ⟨[]⟩

/-- The world in which nothing has happened yet. -/
def freshWorld : World := ⟨[]⟩

/-- The value of a text of decimal digits. -/
def decimalValue (digits : List Char) : Nat :=
  digits.foldl (fun acc c => acc * 10 + (c.toNat - '0'.toNat)) 0

/-! ## The package `ssh`: `scp.go` and `session.go` -/

namespace ssh

/-- The import path of the package `ssh`: `scp.go` imports its sub-package `scp` from
below it. -/
def pkgPath : String := "github.com/gravitational/force/pkg/ssh"

/-- The run-time symbol of the function `Copy`. -/
def CopySymbol : String := "github.com/gravitational/force/pkg/ssh.Copy"

/-- The struct `Target`; `Path` is a `force.StringVar`, the nil interface when unset. -/
structure Target where
  Local : Bool
  Path : Value

/-- The constructor `Local`. -/
def Local (path : Value) : Target := { Local := true, Path := path }

/-- The constructor `Remote`. -/
def Remote (path : Value) : Target := { Local := false, Path := path }

/-- The `reflect.Type` of `Target`. -/
def TargetType : RType :=
  .struct "Target" pkgPath
    [⟨"Local", "", ⟨"bool", ""⟩, true⟩, ⟨"Path", "", ⟨"StringVar", corePkgPath⟩, true⟩]
    []

/-- A `Target` boxed in `interface{}`. -/
def Target.toValue (t : Target) : Value := .struct TargetType [.bool t.Local, t.Path]

/-- The type assertion `v.(Target)`: the target when the dynamic type of `v` is `Target`. -/
def Target.ofValue (v : Value) : Option Target :=
  match v with
  | .struct t [.bool isLocal, path] =>
    if t = TargetType then some { Local := isLocal, Path := path } else none
  | _ => none

/-- The `ssh.ClientConfig` of a connection, as far as the code reads it. -/
structure ClientConfig where
  User : String
  deriving DecidableEq, Repr

/-- A `*Client`, a live connection: its identity and its `config`. -/
structure Client where
  id : Nat
  config : ClientConfig
  deriving DecidableEq, Repr

/-- The `*Plugin` of the package: `cfg.ProxyJump` and `clientConfig`. -/
structure Plugin where
  ProxyJump : String
  clientConfig : ClientConfig
  deriving DecidableEq, Repr

/-- The struct `CopyAction`; `host` is a `force.Expression`, the nil interface when unset,
`client` is nil when the action is not bound. -/
structure CopyAction where
  host : Value
  source : Target
  destination : Target
  client : Option Client

/-- The `CopyAction` values that exist, by address: a `*CopyAction` is an index. -/
abbrev Heap := List CopyAction

/-- The outcome of a call that returns `(Action, error)` and may allocate an action. -/
inductive Allocated where
  /-- The call returned the action at this address and no error. -/
  | ok (action : Nat) (h : Heap)
  /-- The call returned no action and an error. -/
  | fail (err : Error) (h : Heap)
  /-- The call dereferenced a pointer that points nowhere. -/
  | panic

/-- An `Action` of the package `ssh`: a `*CopyAction` by its address, or an action of a
type defined elsewhere. -/
inductive Action where
  | copy (ptr : Nat)
  | other (id : Nat)
  deriving DecidableEq, Repr

/-- The struct `HostSequence`. -/
structure HostSequence where
  host : String
  actions : List Action
  deriving DecidableEq, Repr

/-- A `force.StringsVar`, a value defined elsewhere: its identity and its `Eval` method. -/
structure StringsVar where
  id : Nat
  Eval : ExecutionContext → World → Outcome (List String)

/-- The struct `SessionAction`. -/
structure SessionAction where
  actions : List Action
  hosts : StringsVar

/-- The functions and constants of other packages and files that `scp.go` and `session.go`
use up to the point where a copy is set up. -/
structure Sys where
  /-- The constant `Key`, as a string. -/
  Key : String
  /-- The lookup `ctx.Process().Group().GetPlugin(Key)`. -/
  GetPlugin : ExecutionContext → Option Plugin
  /-- The function `force.EvalString`. -/
  EvalString : ExecutionContext → Value → World → Outcome String
  /-- The function `force.ExpectString`: the error, if any. -/
  ExpectString : Value → Option Error
  /-- What dialing a host gives (the function `dial` that `scp.go` calls): the client or
  the error. -/
  dial : ExecutionContext → String → String → ClientConfig → Except Error Client
  /-- How the verb `%T` prints the type of a value. -/
  fmtT : Value → String
  /-- What `force.Parallel(actions...).Run(ctx)` does. -/
  Parallel : List HostSequence → ExecutionContext → World → Outcome Unit

/-- The struct `scp.Config`, without the progress writer. -/
structure scp.Config where
  User : String
  RemoteLocation : String
  Target : List String
  deriving DecidableEq, Repr

/-- A `scp.Command`: what its `GetRemoteShellCmd` returns and what its `Execute` returns
when it drives the protocol over the channel. -/
structure scp.Command where
  GetRemoteShellCmd : Except Error String
  Execute : Option Error

/-- What the ssh library returns on the connection of a client: the errors of
`NewSession`, `StdinPipe` and `StdoutPipe`, and the error of `Run` for a shell command. -/
structure Connection where
  NewSession : Option Error
  StdinPipe : Option Error
  StdoutPipe : Option Error
  Run : String → Option Error

/-- The functions of other packages that carry out a copy. -/
structure Wire where
  /-- The function `scp.CreateUploadCommand`. -/
  CreateUploadCommand : scp.Config → Except Error scp.Command
  /-- The function `scp.CreateDownloadCommand`. -/
  CreateDownloadCommand : scp.Config → Except Error scp.Command
  /-- The ssh library on the connection of a client. -/
  remote : Client → Connection

/-- Copy runs SSH command on a remote server: the constructor of a `CopyAction`. -/
def Copy (sys : Sys) (h : Heap) (args : List Value) : Allocated :=
  let c : CopyAction :=
    { host := .nil, source := ⟨false, .nil⟩, destination := ⟨false, .nil⟩, client := none }
  match args with
  | [a0, a1, a2] =>
    if !a0.isExpression then
      .fail (trace.BadParameter
        ("expected first argument to be string, got " ++ sys.fmtT a0)) h
    else
      match sys.ExpectString a0 with
      | some err =>
        .fail (trace.BadParameter ("expected first argument to be string: " ++ err.msg)) h
      | none =>
        let c := { c with host := a0 }
        match Target.ofValue a1 with
        | none =>
          .fail (trace.BadParameter
            "expected second argument to be ssh.Local or ssh.Remote") h
        | some source =>
          let c := { c with source := source }
          match Target.ofValue a2 with
          | none =>
            .fail (trace.BadParameter
              "expected third argument to be ssh.Local or ssh.Remote") h
          | some destination =>
            let c := { c with destination := destination }
            .ok h.length (h ++ [c])
  | [a0, a1] =>
    match Target.ofValue a0 with
    | none =>
      .fail (trace.BadParameter "expected first argument to be ssh.Local or ssh.Remote") h
    | some source =>
      let c := { c with source := source }
      match Target.ofValue a1 with
      | none =>
        .fail (trace.BadParameter
          "expected second argument to be ssh.Local or ssh.Remote") h
      | some destination =>
        let c := { c with destination := destination }
        .ok h.length (h ++ [c])
  | _ =>
    .fail (trace.BadParameter (fmt.Sprintf_d args.length ++
      " is unsupported amount of arguments, use as ssh.Copy(`host:port`, source, dest)" ++
      " or in ssh.Session(hosts, ssh.Copy(source, dest))")) h

/-- The method `(*CopyAction).BindClient`; `s` is the receiver. -/
def CopyAction.BindClient (h : Heap) (s : Nat) (client : Option Client) : Allocated :=
  match h[s]? with
  | none => .panic
  | some a =>
    if a.client.isSome then
      .fail (trace.AlreadyExists "client already set") h
    else
      .ok h.length
        (h ++ [{ host := a.host, source := a.source, destination := a.destination,
                 client := client }])

/-- ExecuteSCP runs remote scp command (shellCmd) on the remote server and runs local scp
handler using SCP Command.  The handler runs next to the remote command; both have
returned when their errors are combined. -/
def ExecuteSCP (remote : Connection) (cmd : scp.Command) (w : World) : Option Error × World :=
  match cmd.GetRemoteShellCmd with
  | .error err => (some (trace.Wrap err), w)
  | .ok shellCmd =>
    match remote.NewSession with
    | some err => (some (trace.Wrap err), w)
    | none =>
      match remote.StdinPipe with
      | some err => (some (trace.Wrap err), w)
      | none =>
        match remote.StdoutPipe with
        | some err => (some (trace.Wrap err), w)
        | none =>
          let err := cmd.Execute
          let runErr := remote.Run shellCmd
          let w := w.record (.remoteCmd shellCmd)
          let err := if runErr.isSome && (err.isNone || trace.IsEOF err) then runErr else err
          let err := if trace.IsEOF err then none else err
          (err.map trace.Wrap, w)

/-- The part of `(*CopyAction).Eval` that follows the choice of the client: the paths are
evaluated, the action is validated, the command is created and executed. -/
def CopyAction.transfer (sys : Sys) (wire : Wire) (ctx : ExecutionContext) (s : CopyAction)
    (client : Client) (w : World) : Outcome Value :=
  match sys.EvalString ctx s.source.Path w with
  | .fail err w => .fail (trace.Wrap err) w
  | .noReturn why => .noReturn why
  | .ok sourcePath w =>
    match sys.EvalString ctx s.destination.Path w with
    | .fail err w => .fail (trace.Wrap err) w
    | .noReturn why => .noReturn why
    | .ok destPath w =>
      if s.source.Local && s.destination.Local then
        .fail (trace.BadParameter "source and destination can't be both local") w
      else
        let cmd :=
          if !s.destination.Local then
            wire.CreateUploadCommand
              { User := client.config.User, RemoteLocation := destPath,
                Target := [sourcePath] }
          else
            wire.CreateDownloadCommand
              { User := client.config.User, RemoteLocation := sourcePath,
                Target := [destPath] }
        match cmd with
        | .error err => .fail (trace.Wrap err) w
        | .ok cmd =>
          match ExecuteSCP (wire.remote client) cmd w with
          | (some err, w) => .fail (trace.Wrap err) w
          | (none, w) => .ok (.int 0) w

/-- The deferred `client.Close()` of `(*CopyAction).Eval`: it runs when the function
returns. -/
def closeAfter (client : Client) (r : Outcome Value) : Outcome Value :=
  match r with
  | .ok val w => .ok val (w.record (.close client.id))
  | .fail err w => .fail err (w.record (.close client.id))
  | .noReturn why => .noReturn why

/-- The method `(*CopyAction).Eval`. -/
def CopyAction.Eval (sys : Sys) (wire : Wire) (ctx : ExecutionContext) (s : CopyAction)
    (w : World) : Outcome Value :=
  match sys.GetPlugin ctx with
  | none => .fail (trace.NotFound "initialize ssh plugin in the setup section") w
  | some plugin =>
    match sys.EvalString ctx s.host w with
    | .fail err w => .fail (trace.Wrap err) w
    | .noReturn why => .noReturn why
    | .ok host w =>
      if host != "" then
        match sys.dial ctx host plugin.ProxyJump plugin.clientConfig with
        | .error err => .fail (trace.Wrap err) (w.record (.dial host))
        | .ok client =>
          closeAfter client
            (CopyAction.transfer sys wire ctx s client (w.record (.dial host)))
      else
        match s.client with
        | none =>
          .fail (trace.BadParameter
            "ssh.Command does not have host, it has to be used within ssh.Session") w
        | some client => CopyAction.transfer sys wire ctx s client w

/-- MarshalCode marshals the action into code representation. -/
def CopyAction.MarshalCode (sys : Sys) (rec : MarshalFn) (ctx : ExecutionContext)
    (s : CopyAction) (w : World) : Outcome String :=
  FnCall.MarshalCode rec ctx
    { Package := sys.Key, Fn := .func CopySymbol, FnName := "",
      Args := [s.source.toValue, s.destination.toValue] } w

/-- A `*CopyAction` boxed in `interface{}`: a value that implements `CodeMarshaler` and
`Expression` by the two methods above; `id` is its identity in the record of calls. -/
def CopyAction.toValue (sys : Sys) (wire : Wire) (rec : MarshalFn) (id : Nat)
    (s : CopyAction) : Value :=
  .codeMarshaler id (fun ctx w => CopyAction.MarshalCode sys rec ctx s w)
    (some (fun ctx w => CopyAction.Eval sys wire ctx s w))

/-- Session groups sequence of commands together, if one fails, the chain stop execution. -/
def Session (hosts : StringsVar) (actions : List Action) : SessionAction :=
  { hosts := hosts, actions := actions }

/-- The loop of `(*SessionAction).Run` that fills the slice of per-host sequences: one
`HostSequence` per host, in host order, each with the actions of the session. -/
def hostSequences (actions : List Action) : List String → List HostSequence
  | [] => []
  | h :: hosts => { host := h, actions := actions } :: hostSequences actions hosts

/-- The method `(*SessionAction).Run`. -/
def SessionAction.Run (sys : Sys) (s : SessionAction) (ctx : ExecutionContext) (w : World) :
    Outcome Unit :=
  match s.hosts.Eval ctx (w.record (.eval s.hosts.id)) with
  | .fail err w => .fail (trace.Wrap err) w
  | .noReturn why => .noReturn why
  | .ok hosts w =>
    if hosts.length == 0 then
      .fail (trace.BadParameter "ssh.Sequence needs at least one host") w
    else
      let actions := hostSequences s.actions hosts
      sys.Parallel actions ctx (w.record (.parallel (actions.map (·.host))))

/-- Successive `BindClient` calls on one action, one per client, each in the heap the call
before it left: the addresses of the bound actions and the heap at the end, when all the
calls succeed. -/
def bindAll (h : Heap) (s : Nat) : List Client → Option (List Nat × Heap)
  | [] => some ([], h)
  | c :: cs =>
    match CopyAction.BindClient h s (some c) with
    | .ok q h1 =>
      match bindAll h1 s cs with
      | some (qs, h2) => some (q :: qs, h2)
      | none => none
    | _ => none

/-- A world of collaborators for concrete runs: the plugin is initialised, an expression
is evaluated and has to give a string, a string evaluates to itself and nil to the empty
string, every dial succeeds with client 1, and `Parallel` does nothing. -/
def exampleSys : Sys :=
  { Key := "ssh"
    GetPlugin := fun _ => some { ProxyJump := "", clientConfig := { User := "root" } }
    EvalString := fun ctx v w =>
      match v with
      | .str text => .ok text w
      | .expression id eval =>
        match eval ctx (w.record (.eval id)) with
        | .ok (.str text) w => .ok text w
        | .ok _ w => .fail (trace.BadParameter "expected a string") w
        | .fail err w => .fail err w
        | .noReturn why => .noReturn why
      | _ => .ok "" w
    ExpectString := fun _ => none
    dial := fun _ _ _ config => .ok { id := 1, config := config }
    fmtT := fun _ => "interface"
    Parallel := fun _ _ w => .ok () w }

/-- A wire for concrete runs: commands are created and every call of the ssh library
succeeds. -/
def exampleWire : Wire :=
  { CreateUploadCommand := fun c =>
      .ok { GetRemoteShellCmd := .ok ("scp -t " ++ c.RemoteLocation), Execute := none }
    CreateDownloadCommand := fun c =>
      .ok { GetRemoteShellCmd := .ok ("scp -f " ++ c.RemoteLocation), Execute := none }
    remote := fun _ =>
      { NewSession := none, StdinPipe := none, StdoutPipe := none, Run := fun _ => none } }

end ssh

end Force

namespace Force

/-! ## Lemmas on the loops -/

theorem intercalate_go_eq (sep : String) (ds : List String) (acc : String) :
    String.intercalate.go acc sep ds = acc ++ sepBefore sep ds := by
  induction ds generalizing acc with
  | nil => simp [String.intercalate.go, sepBefore]
  | cons d ds ih => simp [String.intercalate.go, sepBefore, ih, String.append_assoc]

theorem intercalate_cons_eq (sep d : String) (ds : List String) :
    sep.intercalate (d :: ds) = d ++ sepBefore sep ds := by
  simp [String.intercalate, intercalate_go_eq]

/-- The loop, entered at a later index, appends every text behind a separator. -/
theorem writeItems_succ (rec : MarshalFn) (ctx : ExecutionContext) (sep : String)
    (xs : List Value) (i : Nat) (buf : String) (w : World) :
    writeItems rec ctx sep (i + 1) xs buf w =
      match marshalEach rec ctx xs w with
      | .ok texts w => .ok (buf ++ sepBefore sep texts) w
      | .fail err w => .fail err w
      | .noReturn why => .noReturn why := by
  induction xs generalizing i buf w with
  | nil => simp [writeItems, marshalEach, sepBefore]
  | cons x rest ih =>
    simp only [writeItems, marshalEach]
    cases hx : rec ctx x w with
    | ok data w1 =>
      simp only [ih]
      cases hr : marshalEach rec ctx rest w1 <;>
        simp [sepBefore, String.append_assoc]
    | fail err w1 => simp [trace.Wrap]
    | noReturn why => simp

/-- The loop, entered at index 0, writes the texts joined by the separator. -/
theorem writeItems_zero (rec : MarshalFn) (ctx : ExecutionContext) (sep : String)
    (xs : List Value) (buf : String) (w : World) :
    writeItems rec ctx sep 0 xs buf w =
      match marshalEach rec ctx xs w with
      | .ok texts w => .ok (buf ++ sep.intercalate texts) w
      | .fail err w => .fail err w
      | .noReturn why => .noReturn why := by
  cases xs with
  | nil => simp [writeItems, marshalEach, String.intercalate]
  | cons x rest =>
    simp only [writeItems, marshalEach]
    cases hx : rec ctx x w with
    | ok data w1 =>
      simp only [writeItems_succ]
      cases hr : marshalEach rec ctx rest w1 <;>
        simp [intercalate_cons_eq, String.append_assoc]
    | fail err w1 => simp [trace.Wrap]
    | noReturn why => simp

/-! ## Lemmas on decimal digits -/

theorem digitChar_value (k : Nat) (hk : k < 10) :
    (Nat.digitChar k).toNat - '0'.toNat = k := by
  interval_cases k <;> rfl

theorem digitChar_isDigit (k : Nat) (hk : k < 10) : (Nat.digitChar k).isDigit = true := by
  interval_cases k <;> rfl

theorem digitChar_ne_zero (k : Nat) (hk : k < 10) (h0 : k ≠ 0) : Nat.digitChar k ≠ '0' := by
  interval_cases k <;> first | exact absurd rfl h0 | decide

theorem toDigitsCore_append (f n : Nat) (ds : List Char) :
    Nat.toDigitsCore 10 f n ds = Nat.toDigitsCore 10 f n [] ++ ds := by
  induction f generalizing n ds with
  | zero => simp [Nat.toDigitsCore]
  | succ f ih =>
    simp only [Nat.toDigitsCore]
    split
    · simp
    · rw [ih (n / 10) (_ :: ds), ih (n / 10) [_]]; simp

theorem decimalValue_append (xs : List Char) (c : Char) :
    decimalValue (xs ++ [c]) = decimalValue xs * 10 + (c.toNat - '0'.toNat) := by
  simp [decimalValue, List.foldl_append]

theorem decimalValue_toDigitsCore (f n : Nat) (h : n < f) :
    decimalValue (Nat.toDigitsCore 10 f n []) = n := by
  induction f generalizing n with
  | zero => omega
  | succ f ih =>
    simp only [Nat.toDigitsCore]
    split
    · rename_i h0
      have hn : n % 10 = n := by omega
      have hv := digitChar_value (n % 10) (Nat.mod_lt _ (by decide))
      rw [hn] at hv ⊢
      simpa [decimalValue] using hv
    · rename_i h0
      rw [toDigitsCore_append, decimalValue_append, ih (n / 10) (by omega),
        digitChar_value (n % 10) (Nat.mod_lt _ (by decide))]
      omega

theorem isDigit_toDigitsCore (f n : Nat) (ds : List Char)
    (hds : ∀ c ∈ ds, c.isDigit = true) :
    ∀ c ∈ Nat.toDigitsCore 10 f n ds, c.isDigit = true := by
  induction f generalizing n ds with
  | zero => simpa [Nat.toDigitsCore] using hds
  | succ f ih =>
    have hd : (Nat.digitChar (n % 10)).isDigit = true :=
      digitChar_isDigit _ (Nat.mod_lt _ (by decide))
    have hcons : ∀ c ∈ Nat.digitChar (n % 10) :: ds, c.isDigit = true := by
      intro c hc
      rcases List.mem_cons.mp hc with rfl | hc
      · exact hd
      · exact hds c hc
    simp only [Nat.toDigitsCore]
    split
    · exact hcons
    · exact ih (n / 10) _ hcons

theorem head_toDigitsCore (f n : Nat) (ds : List Char) (h : n < f) (h0 : n ≠ 0) :
    (Nat.toDigitsCore 10 f n ds).head? ≠ some '0' := by
  induction f generalizing n ds with
  | zero => omega
  | succ f ih =>
    simp only [Nat.toDigitsCore]
    split
    · rename_i hq
      have hn : n % 10 ≠ 0 := by omega
      simpa using digitChar_ne_zero (n % 10) (Nat.mod_lt _ (by decide)) hn
    · rename_i hq
      exact ih (n / 10) _ (by omega) hq

/-- The digits `%d` prints for a natural number are decimal digits, they denote the
number, and they carry no padding: a leading zero only for the number zero itself. -/
theorem toDigits_decimal (n : Nat) :
    (∀ c ∈ Nat.toDigits 10 n, c.isDigit = true) ∧
    decimalValue (Nat.toDigits 10 n) = n ∧
    (n = 0 → Nat.toDigits 10 n = ['0']) ∧
    (n ≠ 0 → (Nat.toDigits 10 n).head? ≠ some '0') := by
  refine ⟨isDigit_toDigitsCore _ _ _ (by simp), decimalValue_toDigitsCore _ _ (by omega), ?_,
    fun h0 => head_toDigitsCore _ _ _ (by omega) h0⟩
  rintro rfl
  rfl

/-! ## Primitive scalars -/

/-- C1: on a primitive, `MarshalCode` succeeds in every context (and world) and returns the
canonical literal: `true` or `false` for a bool; for an int the decimal digits of its
absolute value, without padding, after a `-` when it is negative; for a string the Go `%q`
form, that is a double quote, the runes of the string with `"` and `\` (and only the
non-printable runes besides) backslash-escaped, and a double quote.  So `true` gives
`true`, `42` gives `42`, and the 3-character string `a"b` gives the 6-character text
`"a\"b"`. -/
theorem MarshalCode_primitive (env : Env) (fuel : Nat) (ctx : ExecutionContext) (w : World) :
    (∀ b : Bool,
      MarshalCode env (fuel + 1) ctx (.bool b) w = .ok (if b then "true" else "false") w) ∧
    (∀ n : Int, ∃ digits : List Char,
      MarshalCode env (fuel + 1) ctx (.int n) w =
        .ok (String.mk (if n < 0 then '-' :: digits else digits)) w ∧
      (∀ c ∈ digits, c.isDigit = true) ∧
      decimalValue digits = n.natAbs ∧
      ((n = 0 ∧ digits = ['0']) ∨ (n ≠ 0 ∧ digits.head? ≠ some '0'))) ∧
    (∀ s : String,
      MarshalCode env (fuel + 1) ctx (.str s) w =
        .ok (String.mk ('"' :: (s.data.flatMap (strconv.escapedRune env) ++ ['"']))) w) ∧
    strconv.escapedRune env '"' = ['\\', '"'] ∧
    strconv.escapedRune env '\\' = ['\\', '\\'] ∧
    (∀ c : Char, strconv.IsPrint env c = true → c ≠ '"' → c ≠ '\\' →
      strconv.escapedRune env c = [c]) ∧
    MarshalCode env (fuel + 1) ctx (.bool true) w = .ok "true" w ∧
    MarshalCode env (fuel + 1) ctx (.int 42) w = .ok "42" w ∧
    MarshalCode env (fuel + 1) ctx (.str "a\"b") w = .ok "\"a\\\"b\"" w ∧
    "a\"b".length = 3 ∧ "\"a\\\"b\"".length = 6 := by
  refine ⟨?_, ?_, ?_, ?_, ?_, ?_, ?_, ?_, ?_, ?_, ?_⟩
  · intro b
    cases b <;> rfl
  · intro n
    obtain ⟨hdig, hval, hzero, hhead⟩ := toDigits_decimal n.natAbs
    refine ⟨Nat.toDigits 10 n.natAbs, ?_, hdig, hval, ?_⟩
    · cases n with
      | ofNat m =>
        have hm : ¬ ((m : Int) < 0) := by omega
        simp [MarshalCode, MarshalCodeBody, fmt.Sprintf_d, hm]
      | negSucc m =>
        have : (Int.negSucc m) < 0 := Int.negSucc_lt_zero m
        simp [MarshalCode, MarshalCodeBody, fmt.Sprintf_d, this, Int.natAbs]
    · by_cases h0 : n = 0
      · exact Or.inl ⟨h0, hzero (by simp [h0])⟩
      · exact Or.inr ⟨h0, hhead (by simpa using h0)⟩
  · intro s
    rfl
  · simp [strconv.escapedRune]
  · simp [strconv.escapedRune]
  · intro c hp h1 h2
    simp [strconv.escapedRune, h1, h2, hp]
  · rfl
  · rfl
  · simp [MarshalCode, MarshalCodeBody, strconv.Quote, strconv.escapedRune, strconv.IsPrint]
  · decide
  · decide

/-! ## Function calls and string slices -/

theorem marshalEach_length (rec : MarshalFn) (ctx : ExecutionContext) (xs : List Value)
    (w w1 : World) (texts : List String) (h : marshalEach rec ctx xs w = .ok texts w1) :
    texts.length = xs.length := by
  induction xs generalizing w texts with
  | nil =>
    simp only [marshalEach, Outcome.ok.injEq] at h
    simp [← h.1]
  | cons x rest ih =>
    simp only [marshalEach] at h
    split at h
    · rename_i data w2 hx
      split at h
      · rename_i ts w3 hr
        simp only [Outcome.ok.injEq] at h
        obtain ⟨h1, h2⟩ := h
        subst h1 h2
        simp [ih w2 ts hr]
      · cases h
      · cases h
    · cases h
    · cases h

/-- A failing item after items that succeed makes the whole list fail with its error, in
the world it left. -/
theorem marshalEach_fail (rec : MarshalFn) (ctx : ExecutionContext)
    (pre post : List Value) (a : Value) (w w1 w2 : World) (texts : List String) (err : Error)
    (hpre : marshalEach rec ctx pre w = .ok texts w1) (ha : rec ctx a w1 = .fail err w2) :
    marshalEach rec ctx (pre ++ a :: post) w = .fail err w2 := by
  induction pre generalizing w texts with
  | nil =>
    simp only [marshalEach, Outcome.ok.injEq] at hpre
    obtain ⟨_, h2⟩ := hpre
    subst h2
    simp only [List.nil_append, marshalEach, ha]
  | cons x rest ih =>
    simp only [marshalEach] at hpre
    split at hpre
    · rename_i data w3 hx
      split at hpre
      · rename_i ts w4 hr
        simp only [Outcome.ok.injEq] at hpre
        obtain ⟨_, h2⟩ := hpre
        subst h2
        have hrest := ih w3 ts hr
        rw [List.cons_append]
        simp only [marshalEach, hx, hrest]
      · cases hpre
      · cases hpre
    · cases hpre
    · cases hpre

/-- What `FnCall.MarshalCode` returns once the function name is known. -/
theorem FnCall_MarshalCode_eq (rec : MarshalFn) (ctx : ExecutionContext) (f : FnCall)
    (w : World) (name : String)
    (hname : (if f.FnName == "" then FunctionName f.Fn else some f.FnName) = some name) :
    FnCall.MarshalCode rec ctx f w =
      match marshalEach rec ctx f.Args w with
      | .ok texts w => .ok (f.qualifier ++ name ++ "(" ++ ", ".intercalate texts ++ ")") w
      | .fail err w => .fail err w
      | .noReturn why => .noReturn why := by
  have hq : (if (f.Package != "" && f.Package != ".") = true then "" ++ (f.Package ++ ".")
      else "") = f.qualifier := by
    unfold FnCall.qualifier
    by_cases h1 : f.Package = "" <;> by_cases h2 : f.Package = "." <;> simp [h1, h2]
  simp only [FnCall.MarshalCode, hname, hq, writeItems_zero]
  cases marshalEach rec ctx f.Args w <;> simp [String.append_assoc]

theorem MarshalCode_str (env : Env) (fuel : Nat) (ctx : ExecutionContext) (s : String)
    (w : World) : MarshalCode env (fuel + 1) ctx (.str s) w = .ok (strconv.Quote env s) w :=
  rfl

theorem marshalEach_strs (env : Env) (fuel : Nat) (ctx : ExecutionContext) (xs : List String)
    (w : World) :
    marshalEach (MarshalCode env (fuel + 1)) ctx (xs.map .str) w =
      .ok (xs.map (strconv.Quote env)) w := by
  induction xs with
  | nil => rfl
  | cons x rest ih =>
    simp only [List.map_cons, marshalEach, MarshalCode_str, ih]

/-- C2: for every slice of strings `xs` (the non-empty ones in particular) `MarshalCode`
succeeds, in every context, and returns a call of the string constructor without package
qualifier: `Strings(`, the quoted literals of the elements of `xs` in their order, as many
as `xs` has elements, separated by `, `, and `)`. -/
theorem MarshalCode_strings (env : Env) (fuel : Nat) (ctx : ExecutionContext)
    (xs : List String) (w : World) :
    MarshalCode env (fuel + 2) ctx (.strings xs) w =
      .ok ("Strings(" ++ ", ".intercalate (xs.map (strconv.Quote env)) ++ ")") w ∧
    (xs.map (strconv.Quote env)).length = xs.length := by
  refine ⟨?_, by simp⟩
  have hsym : FunctionName (.func StringsSymbol) = some "Strings" := by decide
  have hname : (if (FnCall.mk "" (.func StringsSymbol) "" (xs.map .str)).FnName == ""
      then FunctionName (FnCall.mk "" (.func StringsSymbol) "" (xs.map .str)).Fn
      else some (FnCall.mk "" (.func StringsSymbol) "" (xs.map .str)).FnName) =
      some "Strings" := by simpa using hsym
  show FnCall.MarshalCode (MarshalCode env (fuel + 1)) ctx
    ⟨"", .func StringsSymbol, "", xs.map .str⟩ w = _
  rw [FnCall_MarshalCode_eq _ _ _ _ "Strings" hname]
  simp only [marshalEach_strs]
  simp [FnCall.qualifier]

/-- C4: a `FnCall` with a non-empty `FnName` whose arguments all marshal successfully
marshals to the `Package` and a dot when `Package` is neither empty nor `.`, then `FnName`
(whatever `Fn` holds), then `(`, the texts of the arguments in the order of `Args`
separated by `, `, then `)`; without arguments the parentheses are empty.  The
package-level `MarshalCode` on the call returns the same. -/
theorem FnCall_MarshalCode_ok (env : Env) (fuel : Nat) (ctx : ExecutionContext) (f : FnCall)
    (w w1 : World) (texts : List String) (hname : f.FnName ≠ "")
    (hargs : marshalEach (MarshalCode env fuel) ctx f.Args w = .ok texts w1) :
    FnCall.MarshalCode (MarshalCode env fuel) ctx f w =
      .ok ((if f.Package = "" ∨ f.Package = "." then "" else f.Package ++ ".") ++ f.FnName ++
        "(" ++ ", ".intercalate texts ++ ")") w1 ∧
    MarshalCode env (fuel + 1) ctx f.toValue w =
      FnCall.MarshalCode (MarshalCode env fuel) ctx f w ∧
    texts.length = f.Args.length ∧
    (f.Args = [] → ", ".intercalate texts = "") := by
  have hn : (if f.FnName == "" then FunctionName f.Fn else some f.FnName) = some f.FnName := by
    simp [hname]
  refine ⟨?_, rfl, marshalEach_length _ _ _ _ _ _ hargs, ?_⟩
  · rw [FnCall_MarshalCode_eq _ _ _ _ f.FnName hn, hargs]
    rfl
  · intro h0
    rw [h0] at hargs
    simp only [marshalEach, Outcome.ok.injEq] at hargs
    simp [← hargs.1, String.intercalate]

/-- A run of C4: `ssh.Copy(1, "x")`, the name taken from `FnName` and not from `Fn`. -/
theorem FnCall_MarshalCode_ok_witness :
    FnCall.MarshalCode (MarshalCode exampleEnv 1) emptyCtx
        ⟨"ssh", .func "example.com/pkg.Other", "Copy", [.int 1, .str "x"]⟩ freshWorld =
      .ok "ssh.Copy(1, \"x\")" freshWorld :=
  (FnCall_MarshalCode_ok exampleEnv 1 emptyCtx
    ⟨"ssh", .func "example.com/pkg.Other", "Copy", [.int 1, .str "x"]⟩ freshWorld freshWorld
    ["1", "\"x\""] (by decide) (by decide)).1

/-- A failing argument after arguments that succeed makes the call fail with its error. -/
theorem FnCall_MarshalCode_fail_aux (rec : MarshalFn) (ctx : ExecutionContext)
    (f : FnCall) (pre post : List Value) (a : Value) (w w1 w2 : World)
    (texts : List String) (err : Error)
    (hname : f.FnName ≠ "" ∨ FunctionName f.Fn ≠ none)
    (hargs : f.Args = pre ++ a :: post)
    (hpre : marshalEach rec ctx pre w = .ok texts w1)
    (ha : rec ctx a w1 = .fail err w2) :
    FnCall.MarshalCode rec ctx f w = .fail err w2 := by
  have hn : ∃ name, (if f.FnName == "" then FunctionName f.Fn else some f.FnName) =
      some name := by
    by_cases h : f.FnName = ""
    · cases hname with
      | inl h1 => exact absurd h h1
      | inr h2 =>
        obtain ⟨name, hfn⟩ := Option.ne_none_iff_exists'.mp h2
        exact ⟨name, by simp [h, hfn]⟩
    · exact ⟨f.FnName, by simp [h]⟩
  obtain ⟨name, hn⟩ := hn
  rw [FnCall_MarshalCode_eq _ _ _ _ name hn, hargs,
    marshalEach_fail _ _ pre post a w w1 w2 texts err hpre ha]

/-- C5, as the code has it: when the function name of a `FnCall` can be taken (`FnName` is
not empty, or `FunctionName` returns on `Fn`) and an argument fails to marshal after the
arguments before it succeeded, `FnCall.MarshalCode` returns that argument's error and no
bytes, in the world that argument left: whatever follows it in `Args` is not marshaled. -/
theorem FnCall_MarshalCode_fail (env : Env) (fuel : Nat) (ctx : ExecutionContext)
    (f : FnCall) (pre post : List Value) (a : Value) (w w1 w2 : World)
    (texts : List String) (err : Error)
    (hname : f.FnName ≠ "" ∨ FunctionName f.Fn ≠ none)
    (hargs : f.Args = pre ++ a :: post)
    (hpre : marshalEach (MarshalCode env fuel) ctx pre w = .ok texts w1)
    (ha : MarshalCode env fuel ctx a w1 = .fail err w2) :
    FnCall.MarshalCode (MarshalCode env fuel) ctx f w = .fail err w2 :=
  FnCall_MarshalCode_fail_aux _ ctx f pre post a w w1 w2 texts err hname hargs hpre ha

/-- A run of the amended C5: the second of three arguments is a value `MarshalCode` cannot
marshal; the third, an expression, is never evaluated. -/
theorem FnCall_MarshalCode_fail_witness :
    FnCall.MarshalCode (MarshalCode exampleEnv 1) emptyCtx
        ⟨"", .nil, "f", [.int 1, .other "float64",
          .expression 7 (fun _ w => .ok (.int 3) w)]⟩ freshWorld =
      .fail (trace.BadParameter "don't know how to marshal float64") freshWorld :=
  FnCall_MarshalCode_fail exampleEnv 1 emptyCtx
    ⟨"", .nil, "f", [.int 1, .other "float64", .expression 7 (fun _ w => .ok (.int 3) w)]⟩
    [.int 1] [.expression 7 (fun _ w => .ok (.int 3) w)] (.other "float64")
    freshWorld freshWorld freshWorld ["1"] _ (Or.inl (by decide)) rfl (by decide) (by decide)

/-- C5 as stated fails: a `FnCall` without `FnName` whose `Fn` is nil has an argument that
fails to marshal, and `FnCall.MarshalCode` returns neither that argument's error nor any
other: `FunctionName` panics before the first argument is looked at.  So does the call
that `HostSequence.MarshalCode` of `session.go` builds for a sequence of one action, whose
`Fn` is the string `"HostSequence"` and whose one argument is a `[]interface{}`. -/
theorem FnCall_MarshalCode_nameless_panics :
    MarshalCode exampleEnv 1 emptyCtx (.other "float64") freshWorld =
      .fail (trace.BadParameter "don't know how to marshal float64") freshWorld ∧
    FnCall.MarshalCode (MarshalCode exampleEnv 1) emptyCtx
        ⟨"", .nil, "", [.other "float64"]⟩ freshWorld = .noReturn .panic ∧
    MarshalCode exampleEnv 1 emptyCtx
        (.slice (.iface "" "" "interface \x7b\x7d")
          [.nil, .codeMarshaler 9 (fun _ w => .ok "ssh.Copy()" w) none])
        freshWorld =
      .fail (trace.NotImplemented "*interface \x7b\x7d is not implemented yet") freshWorld ∧
    FnCall.MarshalCode (MarshalCode exampleEnv 1) emptyCtx
        ⟨"ssh", .other "string", "",
          [.slice (.iface "" "" "interface \x7b\x7d")
            [.nil, .codeMarshaler 9 (fun _ w => .ok "ssh.Copy()" w) none]]⟩
        freshWorld = .noReturn .panic := by
  refine ⟨by decide, by decide, by decide, by decide⟩

/-! ## Records -/

/-- The field loop, entered after a field was emitted, appends every further pair behind a
comma. -/
theorem writeFields_succ (env : Env) (rec : MarshalFn) (ctx : ExecutionContext)
    (fvs : List (StructField × Value)) (count : Nat) (buf : String) (w : World)
    (hexp : ∀ p ∈ fvs, p.1.exported = true) :
    writeFields env rec ctx fvs (count + 1) buf w =
      match marshalEach rec ctx
          ((fvs.filter (fun p => !fieldExcluded env p)).map Prod.snd) w with
      | .ok texts w =>
        .ok (buf ++ sepBefore ","
          (fieldPairs (fvs.filter (fun p => !fieldExcluded env p)) texts)) w
      | .fail err w => .fail err w
      | .noReturn why => .noReturn why := by
  induction fvs generalizing count buf w with
  | nil => simp [writeFields, marshalEach, fieldPairs, sepBefore]
  | cons p rest ih =>
    obtain ⟨ft, fv⟩ := p
    have hft : ft.exported = true := hexp (ft, fv) (List.mem_cons_self _ _)
    have hrest : ∀ p ∈ rest, p.1.exported = true :=
      fun p hp => hexp p (List.mem_cons_of_mem _ hp)
    by_cases hex : fieldExcluded env (ft, fv) = true
    · have hex2 : (fv.isNil || ft.codeTag == "-" || ft.name == env.metadataFieldName) = true := hex
      simp only [writeFields, hft, hex2, if_true, List.filter_cons, hex, Bool.not_true,
        Bool.false_eq_true, if_false, ih _ _ _ hrest]
    · have hex2 : ¬ (fv.isNil || ft.codeTag == "-" || ft.name == env.metadataFieldName) = true :=
        hex
      have hex3 : (!fieldExcluded env (ft, fv)) = true := by simpa using hex
      simp only [writeFields, hft, Bool.not_true, Bool.false_eq_true, hex2, if_false,
        List.filter_cons, hex3, if_true, List.map_cons, marshalEach]
      cases hx : rec ctx fv w with
      | ok data w1 =>
        simp only [ih _ _ _ hrest]
        cases hr : marshalEach rec ctx
            ((rest.filter (fun p => !fieldExcluded env p)).map Prod.snd) w1 <;>
          simp [fieldPairs, sepBefore, String.append_assoc]
      | fail err w1 => simp [trace.Wrap]
      | noReturn why => simp

/-- The field loop, entered with no field emitted yet, writes the pairs joined by commas. -/
theorem writeFields_zero (env : Env) (rec : MarshalFn) (ctx : ExecutionContext)
    (fvs : List (StructField × Value)) (buf : String) (w : World)
    (hexp : ∀ p ∈ fvs, p.1.exported = true) :
    writeFields env rec ctx fvs 0 buf w =
      match marshalEach rec ctx
          ((fvs.filter (fun p => !fieldExcluded env p)).map Prod.snd) w with
      | .ok texts w =>
        .ok (buf ++ ",".intercalate
          (fieldPairs (fvs.filter (fun p => !fieldExcluded env p)) texts)) w
      | .fail err w => .fail err w
      | .noReturn why => .noReturn why := by
  induction fvs generalizing buf w with
  | nil => simp [writeFields, marshalEach, fieldPairs, String.intercalate]
  | cons p rest ih =>
    obtain ⟨ft, fv⟩ := p
    have hft : ft.exported = true := hexp (ft, fv) (List.mem_cons_self _ _)
    have hrest : ∀ p ∈ rest, p.1.exported = true :=
      fun p hp => hexp p (List.mem_cons_of_mem _ hp)
    by_cases hex : fieldExcluded env (ft, fv) = true
    · have hex2 : (fv.isNil || ft.codeTag == "-" || ft.name == env.metadataFieldName) = true := hex
      simp only [writeFields, hft, hex2, if_true, List.filter_cons, hex, Bool.not_true,
        Bool.false_eq_true, if_false, ih _ _ hrest]
    · have hex2 : ¬ (fv.isNil || ft.codeTag == "-" || ft.name == env.metadataFieldName) = true :=
        hex
      have hex3 : (!fieldExcluded env (ft, fv)) = true := by simpa using hex
      simp only [writeFields, hft, Bool.not_true, Bool.false_eq_true, hex2, if_false,
        List.filter_cons, hex3, if_true, List.map_cons, marshalEach]
      cases hx : rec ctx fv w with
      | ok data w1 =>
        simp only [writeFields_succ _ _ _ _ _ _ _ hrest]
        cases hr : marshalEach rec ctx
            ((rest.filter (fun p => !fieldExcluded env p)).map Prod.snd) w1 <;>
          simp [fieldPairs, intercalate_cons_eq, String.append_assoc]
      | fail err w1 => simp [trace.Wrap]
      | noReturn why => simp

theorem writeTypeName_struct (env : Env) (name pkgPath : String)
    (fields promoted : List StructField) (buf : String) :
    ∃ header, writeTypeName env (.struct name pkgPath fields promoted) buf = some header := by
  unfold writeTypeName StructPackageName StructName
  simp only [RType.FieldByName, RType.Name, RType.PkgPath]
  cases fields.find? (fun f => f.name == env.metadataFieldName) <;>
    cases promoted.find? (fun f => f.name == env.metadataFieldName) <;>
    by_cases h1 : pkgPath = corePkgPath <;> by_cases h2 : name = "" <;> simp [h1, h2]

/-- C3, as the code has it: a record value all of whose fields are exported, with `N`
fields of which `K` are excluded (the value is nil, the `code` tag is `-`, or it is the
metadata field), whose other fields marshal successfully, marshals to its type name, `{`,
the `name:value` pairs of the fields that are not excluded, in declaration order and joined
by commas, and `}`.  The pairs are `N - K` in number, so the commas between them are
`N - K - 1`: none in front, none behind, none for a skipped field. -/
theorem MarshalCode_struct (env : Env) (fuel : Nat) (ctx : ExecutionContext)
    (name pkgPath : String) (fields promoted : List StructField) (vals : List Value)
    (w w1 : World) (texts : List String)
    (hexp : ∀ field ∈ fields, field.exported = true)
    (hlen : vals.length = fields.length)
    (hok : marshalEach (MarshalCode env fuel) ctx
      ((emittedFields env fields vals).map Prod.snd) w = .ok texts w1) :
    ∃ header : String,
      writeTypeName env (.struct name pkgPath fields promoted) "" = some header ∧
      MarshalCode env (fuel + 1) ctx (.struct (.struct name pkgPath fields promoted) vals) w =
        .ok (header ++ "\x7b" ++
          ",".intercalate (fieldPairs (emittedFields env fields vals) texts) ++ "\x7d") w1 ∧
      (fieldPairs (emittedFields env fields vals) texts).length =
        fields.length - (fields.zip vals).countP (fieldExcluded env) ∧
      (emittedFields env fields vals).Sublist (fields.zip vals) := by
  obtain ⟨header, hh⟩ := writeTypeName_struct env name pkgPath fields promoted ""
  have hzexp : ∀ p ∈ fields.zip vals, p.1.exported = true := by
    intro p hp
    obtain ⟨ft, fv⟩ := p
    exact hexp ft (List.of_mem_zip hp).1
  refine ⟨header, hh, ?_, ?_, List.filter_sublist _⟩
  · show MarshalCodeBody env (MarshalCode env fuel) ctx _ w = _
    simp only [MarshalCodeBody, hh, writeFields_zero _ _ _ _ _ _ hzexp]
    unfold emittedFields at hok
    rw [hok]
    simp [emittedFields, String.append_assoc]
  · have htl := marshalEach_length _ _ _ _ _ _ hok
    have hzip : (fields.zip vals).length = fields.length := by simp [hlen]
    have hsplit := List.length_eq_countP_add_countP (fieldExcluded env) (fields.zip vals)
    have hem : (emittedFields env fields vals).length =
        (fields.zip vals).countP (fun a => ¬ fieldExcluded env a = true) := by
      unfold emittedFields
      rw [List.countP_eq_length_filter]
      congr 2
      funext a
      simp
    simp only [fieldPairs, List.length_zipWith, htl, List.length_map, Nat.min_self]
    omega

/-- A run of the amended C3: of the four fields of a record, all exported, two are excluded,
one by its tag and one because it is nil; the two others are emitted with one comma between
them. -/
theorem MarshalCode_struct_witness :
    MarshalCode exampleEnv 2 emptyCtx
        (.struct (.struct "Target" "github.com/gravitational/force/pkg/ssh"
            [⟨"Local", "", ⟨"bool", ""⟩, true⟩, ⟨"Hidden", "-", ⟨"int", ""⟩, true⟩,
             ⟨"Path", "", ⟨"StringVar", corePkgPath⟩, true⟩,
             ⟨"Extra", "", ⟨"StringVar", corePkgPath⟩, true⟩] [])
          [.bool true, .int 5, .str "/tmp", .nil]) freshWorld =
      .ok "ssh.Target\x7bLocal:true,Path:\"/tmp\"\x7d" freshWorld := by
  obtain ⟨header, h1, h2, -, -⟩ := MarshalCode_struct exampleEnv 1 emptyCtx
    "Target" "github.com/gravitational/force/pkg/ssh"
    [⟨"Local", "", ⟨"bool", ""⟩, true⟩, ⟨"Hidden", "-", ⟨"int", ""⟩, true⟩,
     ⟨"Path", "", ⟨"StringVar", corePkgPath⟩, true⟩,
     ⟨"Extra", "", ⟨"StringVar", corePkgPath⟩, true⟩] []
    [.bool true, .int 5, .str "/tmp", .nil] freshWorld freshWorld ["true", "\"/tmp\""]
    (by decide) (by decide) (by decide)
  rw [h2]
  have hh : header = "ssh.Target" := by
    have : some header = some "ssh.Target" := by rw [← h1]; decide
    exact Option.some.inj this
  subst hh
  decide

/-- C3 as stated fails: the record `pkg.Job{Name: "a", id: 7}` has two fields, none of them
excluded, and both values marshal successfully, yet `MarshalCode` emits no pair at all: it
panics when the loop boxes the field `id`, which is not exported.  The same happens when
that field is tagged `code:"-"`, and so counts among the excluded ones: the field is boxed
before the tag is read. -/
theorem MarshalCode_struct_unexported_field :
    marshalEach (MarshalCode exampleEnv 1) emptyCtx
        ((emittedFields exampleEnv
          [⟨"Name", "", ⟨"string", ""⟩, true⟩, ⟨"id", "", ⟨"int", ""⟩, false⟩]
          [.str "a", .int 7]).map Prod.snd) freshWorld = .ok ["\"a\"", "7"] freshWorld ∧
    MarshalCode exampleEnv 2 emptyCtx
        (.struct (.struct "Job" "example.com/pkg"
            [⟨"Name", "", ⟨"string", ""⟩, true⟩, ⟨"id", "", ⟨"int", ""⟩, false⟩] [])
          [.str "a", .int 7]) freshWorld = .noReturn .panic ∧
    marshalEach (MarshalCode exampleEnv 1) emptyCtx
        ((emittedFields exampleEnv
          [⟨"Name", "", ⟨"string", ""⟩, true⟩, ⟨"id", "-", ⟨"int", ""⟩, false⟩]
          [.str "a", .int 7]).map Prod.snd) freshWorld = .ok ["\"a\""] freshWorld ∧
    MarshalCode exampleEnv 2 emptyCtx
        (.struct (.struct "Job" "example.com/pkg"
            [⟨"Name", "", ⟨"string", ""⟩, true⟩, ⟨"id", "-", ⟨"int", ""⟩, false⟩]
            [])
          [.str "a", .int 7]) freshWorld = .noReturn .panic := by
  refine ⟨by decide, by decide, by decide, by decide⟩

/-! ## Nil -/

theorem MarshalCode_nil_not_ok (env : Env) (fuel : Nat) (ctx : ExecutionContext)
    (w w1 : World) (data : String) : MarshalCode env fuel ctx .nil w ≠ .ok data w1 := by
  cases fuel with
  | zero => simp [MarshalCode]
  | succ fuel => simp [MarshalCode, MarshalCodeBody]

theorem marshalEach_nil_not_ok (env : Env) (fuel : Nat) (ctx : ExecutionContext)
    (xs : List Value) (hnil : Value.nil ∈ xs) (w w1 : World) (texts : List String) :
    marshalEach (MarshalCode env fuel) ctx xs w ≠ .ok texts w1 := by
  induction xs generalizing w w1 texts with
  | nil => cases hnil
  | cons x rest ih =>
    intro h
    simp only [marshalEach] at h
    split at h
    · rename_i data w2 hx
      split at h
      · rename_i ts w3 hr
        rcases List.mem_cons.mp hnil with hx0 | hrest
        · rw [← hx0] at hx
          exact MarshalCode_nil_not_ok env fuel ctx w w2 data hx
        · exact ih hrest w2 w3 ts hr
      · cases h
      · cases h
    · cases h
    · cases h

/-- C6, as the code has it: `MarshalCode` on nil returns a BadParameter error and no bytes
in every context, and a `FnCall` with a nil among its `Args` never returns rendered text,
whatever the nesting bound.  When the function name of the call can be taken (`FnName` is
not empty, or `FunctionName` returns on `Fn`), the call fails with that error when the
arguments before the nil marshal successfully, and with the error of the first failing
argument when one before the nil fails. -/
theorem nil_is_an_error (env : Env) (fuel : Nat) (ctx : ExecutionContext) (w : World) :
    MarshalCode env (fuel + 1) ctx .nil w = .fail (trace.BadParameter "nil was a mistake") w ∧
    trace.IsBadParameter (trace.BadParameter "nil was a mistake") = true ∧
    (∀ (f : FnCall) (data : String) (w1 : World), Value.nil ∈ f.Args →
      FnCall.MarshalCode (MarshalCode env fuel) ctx f w ≠ .ok data w1) ∧
    (∀ (f : FnCall) (pre post : List Value) (texts : List String) (w1 : World),
      (f.FnName ≠ "" ∨ FunctionName f.Fn ≠ none) → f.Args = pre ++ Value.nil :: post →
      marshalEach (MarshalCode env (fuel + 1)) ctx pre w = .ok texts w1 →
      FnCall.MarshalCode (MarshalCode env (fuel + 1)) ctx f w =
        .fail (trace.BadParameter "nil was a mistake") w1) ∧
    (∀ (f : FnCall) (pre post : List Value) (a : Value) (texts : List String)
      (err : Error) (w1 w2 : World),
      (f.FnName ≠ "" ∨ FunctionName f.Fn ≠ none) → f.Args = pre ++ a :: post →
      Value.nil ∈ post →
      marshalEach (MarshalCode env fuel) ctx pre w = .ok texts w1 →
      MarshalCode env fuel ctx a w1 = .fail err w2 →
      FnCall.MarshalCode (MarshalCode env fuel) ctx f w = .fail err w2) := by
  refine ⟨rfl, rfl, ?_, ?_, ?_⟩
  · intro f data w1 hnil h
    unfold FnCall.MarshalCode at h
    simp only [writeItems_zero] at h
    split at h
    · cases h
    · split at h
      · rename_i hm
        split at hm
        · rename_i texts w2 he
          exact marshalEach_nil_not_ok env fuel ctx f.Args hnil w w2 texts he
        · cases hm
        · cases hm
      · cases h
      · cases h
  · intro f pre post texts w1 hname hargs hpre
    exact FnCall_MarshalCode_fail_aux _ ctx f pre post .nil w w1 w1 texts _
      hname hargs hpre rfl
  · intro f pre post a texts err w1 w2 hname hargs _ hpre ha
    exact FnCall_MarshalCode_fail_aux _ ctx f pre post a w w1 w2 texts err
      hname hargs hpre ha

/-- A run of the amended C6: the nil second argument of `f(1, nil, 2)` gives the error, and
in `f(1, 2.5, nil)` the argument before the nil does. -/
theorem nil_is_an_error_witness :
    FnCall.MarshalCode (MarshalCode exampleEnv 1) emptyCtx
        ⟨"", .nil, "f", [.int 1, .nil, .int 2]⟩ freshWorld =
      .fail (trace.BadParameter "nil was a mistake") freshWorld ∧
    FnCall.MarshalCode (MarshalCode exampleEnv 1) emptyCtx
        ⟨"", .nil, "f", [.int 1, .other "float64", .nil]⟩ freshWorld =
      .fail (trace.BadParameter "don't know how to marshal float64") freshWorld :=
  ⟨(nil_is_an_error exampleEnv 0 emptyCtx freshWorld).2.2.2.1
      ⟨"", .nil, "f", [.int 1, .nil, .int 2]⟩ [.int 1] [.int 2] ["1"] freshWorld
      (Or.inl (by decide)) rfl (by decide),
    (nil_is_an_error exampleEnv 1 emptyCtx freshWorld).2.2.2.2
      ⟨"", .nil, "f", [.int 1, .other "float64", .nil]⟩ [.int 1] [.nil] (.other "float64")
      ["1"] _ freshWorld freshWorld
      (Or.inl (by decide)) rfl (List.mem_cons_self _ _) (by decide) (by decide)⟩

/-- C6 as stated fails: the call `f([]int{}, nil)` has a nil among its arguments and fails
with the not-implemented error of the argument before it, which is not a BadParameter
error. -/
theorem nil_argument_other_error :
    Value.nil ∈ [Value.slice (.other "int" "") [], Value.nil] ∧
    FnCall.MarshalCode (MarshalCode exampleEnv 1) emptyCtx
        ⟨"", .nil, "f", [.slice (.other "int" "") [], .nil]⟩ freshWorld =
      .fail (trace.NotImplemented "not implemented") freshWorld ∧
    trace.IsBadParameter (trace.NotImplemented "not implemented") = false ∧
    trace.NotImplemented "not implemented" ≠ trace.BadParameter "nil was a mistake" := by
  refine ⟨List.mem_cons_of_mem _ (List.mem_cons_self _ _), by decide, by decide, by decide⟩

/-! ## The nesting bound

A larger bound changes nothing once a call has returned: the outcome of every function of
the marshaler is either the exhaustion of the bound or the outcome under any larger
bound. -/

theorem writeItems_mono (f g : MarshalFn)
    (h : ∀ ctx v w, f ctx v w = .noReturn .outOfFuel ∨ f ctx v w = g ctx v w)
    (ctx : ExecutionContext) (sep : String) (xs : List Value) (i : Nat) (buf : String)
    (w : World) :
    writeItems f ctx sep i xs buf w = .noReturn .outOfFuel ∨
      writeItems f ctx sep i xs buf w = writeItems g ctx sep i xs buf w := by
  induction xs generalizing i buf w with
  | nil => exact Or.inr rfl
  | cons x rest ih =>
    simp only [writeItems]
    rcases h ctx x w with h1 | h1
    · exact Or.inl (by rw [h1])
    · rw [h1]
      cases g ctx x w with
      | ok data w1 => exact ih _ _ _
      | fail err w1 => exact Or.inr rfl
      | noReturn why => exact Or.inr rfl

theorem writeFields_mono (env : Env) (f g : MarshalFn)
    (h : ∀ ctx v w, f ctx v w = .noReturn .outOfFuel ∨ f ctx v w = g ctx v w)
    (ctx : ExecutionContext) (fvs : List (StructField × Value)) (count : Nat) (buf : String)
    (w : World) :
    writeFields env f ctx fvs count buf w = .noReturn .outOfFuel ∨
      writeFields env f ctx fvs count buf w = writeFields env g ctx fvs count buf w := by
  induction fvs generalizing count buf w with
  | nil => exact Or.inr rfl
  | cons p rest ih =>
    obtain ⟨ft, fv⟩ := p
    simp only [writeFields]
    split
    · exact Or.inr rfl
    · split
      · exact ih _ _ _
      · rcases h ctx fv w with h1 | h1
        · exact Or.inl (by rw [h1])
        · rw [h1]
          cases g ctx fv w with
          | ok data w1 => exact ih _ _ _
          | fail err w1 => exact Or.inr rfl
          | noReturn why => exact Or.inr rfl

theorem FnCall_MarshalCode_mono (f g : MarshalFn)
    (h : ∀ ctx v w, f ctx v w = .noReturn .outOfFuel ∨ f ctx v w = g ctx v w)
    (ctx : ExecutionContext) (c : FnCall) (w : World) :
    FnCall.MarshalCode f ctx c w = .noReturn .outOfFuel ∨
      FnCall.MarshalCode f ctx c w = FnCall.MarshalCode g ctx c w := by
  unfold FnCall.MarshalCode
  simp only
  split
  · exact Or.inr rfl
  · rename_i name hname
    rcases writeItems_mono f g h ctx ", " c.Args 0 _ w with h1 | h1
    · exact Or.inl (by rw [h1])
    · exact Or.inr (by rw [h1])

theorem Expression_Eval_mono (f g : MarshalFn)
    (h : ∀ ctx v w, f ctx v w = .noReturn .outOfFuel ∨ f ctx v w = g ctx v w)
    (ctx : ExecutionContext) (e : Value) (w : World) :
    Expression.Eval f ctx e w = .noReturn .outOfFuel ∨
      Expression.Eval f ctx e w = Expression.Eval g ctx e w := by
  cases e with
  | marshaler node =>
    simp only [Expression.Eval, Marshaler.Eval]
    rcases h ctx node w with h1 | h1
    · exact Or.inl (by rw [h1])
    · exact Or.inr (by rw [h1])
  | codeMarshaler id marshal eval => cases eval <;> exact Or.inr rfl
  | _ => exact Or.inr rfl

theorem MarshalCodeBody_mono (env : Env) (f g : MarshalFn)
    (h : ∀ ctx v w, f ctx v w = .noReturn .outOfFuel ∨ f ctx v w = g ctx v w)
    (ctx : ExecutionContext) (v : Value) (w : World) :
    MarshalCodeBody env f ctx v w = .noReturn .outOfFuel ∨
      MarshalCodeBody env f ctx v w = MarshalCodeBody env g ctx v w := by
  cases v with
  | nil => exact Or.inr rfl
  | bool b => exact Or.inr rfl
  | int n => exact Or.inr rfl
  | str s => exact Or.inr rfl
  | strings xs =>
    exact FnCall_MarshalCode_mono f g h ctx ⟨"", .func StringsSymbol, "", xs.map .str⟩ w
  | marshaler node =>
    simp only [MarshalCodeBody, Marshaler.MarshalCode]
    rcases h ctx node w with h1 | h1
    · exact Or.inl (by rw [h1])
    · exact Or.inr (by rw [h1])
  | unquoter node =>
    simp only [MarshalCodeBody, Unquoter.MarshalCode]
    rcases Expression_Eval_mono f g h ctx node w with h1 | h1
    · exact Or.inl (by rw [h1])
    · rw [h1]
      cases Expression.Eval g ctx node w with
      | ok out w1 => exact h ctx out w1
      | fail err w1 => exact Or.inr rfl
      | noReturn why => exact Or.inr rfl
  | fnCall pkg fn fnName args => exact FnCall_MarshalCode_mono f g h ctx _ w
  | codeMarshaler id marshal eval => exact Or.inr rfl
  | expression id eval =>
    simp only [MarshalCodeBody]
    cases eval ctx (w.record (.eval id)) with
    | ok i w1 => exact h ctx i w1
    | fail err w1 => exact Or.inr rfl
    | noReturn why => exact Or.inr rfl
  | stringVars xs =>
    exact FnCall_MarshalCode_mono f g h ctx ⟨"", .func StringsSymbol, "", xs⟩ w
  | slice elem elems =>
    cases elem with
    | struct name pkgPath fields promoted =>
      simp only [MarshalCodeBody]
      cases writeTypeName env (.struct name pkgPath fields promoted) "[]" with
      | none => exact Or.inr rfl
      | some buf =>
        rcases writeItems_mono f g h ctx "," elems 0 (buf ++ "\x7b") w with h1 | h1
        · exact Or.inl (by simp only [h1])
        · exact Or.inr (by simp only [h1])
    | iface name pkgPath str =>
      simp only [MarshalCodeBody]
      split
      · exact FnCall_MarshalCode_mono f g h ctx _ w
      · exact Or.inr rfl
    | ptr elem => exact Or.inr rfl
    | other name pkgPath => exact Or.inr rfl
  | struct t vals =>
    cases t with
    | struct name pkgPath fields promoted =>
      simp only [MarshalCodeBody]
      cases writeTypeName env (.struct name pkgPath fields promoted) "" with
      | none => exact Or.inr rfl
      | some buf =>
        rcases writeFields_mono env f g h ctx (fields.zip vals) 0 (buf ++ "\x7b") w with h1 | h1
        · exact Or.inl (by simp only [h1])
        · exact Or.inr (by simp only [h1])
    | ptr elem => exact Or.inr rfl
    | iface name pkgPath str => exact Or.inr rfl
    | other name pkgPath => exact Or.inr rfl
  | other goType => exact Or.inr rfl

theorem MarshalCode_succ (env : Env) (fuel : Nat) (ctx : ExecutionContext) (v : Value)
    (w : World) :
    MarshalCode env fuel ctx v w = .noReturn .outOfFuel ∨
      MarshalCode env fuel ctx v w = MarshalCode env (fuel + 1) ctx v w := by
  induction fuel generalizing ctx v w with
  | zero => exact Or.inl rfl
  | succ fuel ih =>
    exact MarshalCodeBody_mono env (MarshalCode env fuel) (MarshalCode env (fuel + 1))
      (fun ctx v w => ih ctx v w) ctx v w

/-- Once `MarshalCode` has returned under some nesting bound, it returns the same under
every larger bound. -/
theorem MarshalCode_mono (env : Env) (fuel more : Nat) (ctx : ExecutionContext) (v : Value)
    (w : World) (h : MarshalCode env fuel ctx v w ≠ .noReturn .outOfFuel) :
    MarshalCode env (fuel + more) ctx v w = MarshalCode env fuel ctx v w := by
  induction more with
  | zero => rfl
  | succ more ih =>
    rcases MarshalCode_succ env (fuel + more) ctx v w with h1 | h1
    · rw [ih] at h1
      exact absurd h1 h
    · rw [← ih, h1]
      rfl

/-! ## Marshal and Unquote -/

theorem Marshal_Eval_aux (env : Env) (fuel : Nat) (ctx : ExecutionContext) (n : Value)
    (w : World) (data : String) (w1 : World) :
    MarshalCode env fuel ctx n w = .ok data w1 ↔
      Expression.Eval (MarshalCode env fuel) ctx (Marshal n) w = .ok (.str data) w1 := by
  show _ ↔ Marshaler.Eval (MarshalCode env fuel) ctx n w = _
  unfold Marshaler.Eval
  cases MarshalCode env fuel ctx n w <;> simp

/-- C7: `Marshal(n).Eval(ctx)` returns the text of `n`: it succeeds exactly when
`MarshalCode(ctx, n)` does, with the string of the bytes `MarshalCode` returns, it fails
exactly when `MarshalCode` fails, with that error, any value it returns is such a string,
and `Marshal(n).MarshalCode(ctx)` returns what `MarshalCode(ctx, n)` returns. -/
theorem Marshal_Eval (env : Env) (fuel : Nat) (ctx : ExecutionContext) (n : Value)
    (w : World) :
    (∀ (data : String) (w1 : World),
      MarshalCode env fuel ctx n w = .ok data w1 ↔
        Expression.Eval (MarshalCode env fuel) ctx (Marshal n) w = .ok (.str data) w1) ∧
    (∀ (err : Error) (w1 : World),
      MarshalCode env fuel ctx n w = .fail err w1 ↔
        Expression.Eval (MarshalCode env fuel) ctx (Marshal n) w = .fail err w1) ∧
    (∀ (v : Value) (w1 : World),
      Expression.Eval (MarshalCode env fuel) ctx (Marshal n) w = .ok v w1 →
        ∃ data, v = .str data ∧ MarshalCode env fuel ctx n w = .ok data w1) ∧
    Marshaler.MarshalCode (MarshalCode env fuel) ctx n w = MarshalCode env fuel ctx n w ∧
    MarshalCode env (fuel + 1) ctx (Marshal n) w = MarshalCode env fuel ctx n w := by
  have hm : Marshaler.MarshalCode (MarshalCode env fuel) ctx n w =
      MarshalCode env fuel ctx n w := by
    unfold Marshaler.MarshalCode
    cases MarshalCode env fuel ctx n w <;> rfl
  have he : Expression.Eval (MarshalCode env fuel) ctx (Marshal n) w =
      Marshaler.Eval (MarshalCode env fuel) ctx n w := rfl
  rw [he]
  unfold Marshaler.Eval
  refine ⟨?_, ?_, ?_, hm, hm⟩
  · intro data w1
    cases MarshalCode env fuel ctx n w <;> simp
  · intro err w1
    cases MarshalCode env fuel ctx n w <;> simp [trace.Wrap]
  · intro v w1
    cases MarshalCode env fuel ctx n w <;> simp
    intro h1 h2
    exact ⟨_, h1.symm, rfl, h2⟩

/-- C8 at the failing input: `e` is an expression that does not implement `CodeMarshaler`
and is not wrapped in `Unquote`.  `Marshal(e).Eval` and `Marshal(e).MarshalCode` invoke
`e.Eval`, once (the call is recorded); the text is that of the value `e` evaluates to, `3`
or `4`, and when `e.Eval` fails they fail with its error.  The comments on `Marshal` and on
`Marshaler.Eval` say that the expression is not evaluated. -/
theorem Marshal_evaluates_plain_expression :
    Expression.Eval (MarshalCode exampleEnv 2) emptyCtx
        (Marshal (.expression 7 (fun _ w => .ok (.int 3) w))) freshWorld =
      .ok (.str "3") ⟨[.eval 7]⟩ ∧
    Expression.Eval (MarshalCode exampleEnv 2) emptyCtx
        (Marshal (.expression 7 (fun _ w => .ok (.int 4) w))) freshWorld =
      .ok (.str "4") ⟨[.eval 7]⟩ ∧
    Expression.Eval (MarshalCode exampleEnv 2) emptyCtx
        (Marshal (.expression 7 (fun _ w => .fail (trace.BadParameter "no value") w)))
        freshWorld =
      .fail (trace.BadParameter "no value") ⟨[.eval 7]⟩ ∧
    MarshalCode exampleEnv 3 emptyCtx
        (Marshal (.expression 7 (fun _ w => .ok (.int 3) w))) freshWorld =
      .ok "3" ⟨[.eval 7]⟩ ∧
    (World.mk [.eval 7]).evalCount 7 = 1 :=
  ⟨rfl, rfl, rfl, rfl, rfl⟩

/-- Where `Marshal` does quote: for an expression `e` that implements `CodeMarshaler` and is
not an `Unquote`, `Marshal(e).Eval` and `Marshal(e).MarshalCode` return what the
`MarshalCode` method of `e` returns (as a string, for `Eval`).  The `Eval` method of `e` is
not invoked: for a type defined elsewhere only the call of its `MarshalCode` is recorded,
and the outcome is the same whatever its `Eval` is; for a `Marshaler` the inner
`MarshalCode` is what runs. -/
theorem Marshal_quotes_code_marshalers (env : Env) (fuel : Nat) (ctx : ExecutionContext)
    (w : World) (id : Nat) (marshal : ExecutionContext → World → Outcome String)
    (eval eval1 : Option (ExecutionContext → World → Outcome Value)) (n : Value) :
    Expression.Eval (MarshalCode env (fuel + 1)) ctx
        (Marshal (.codeMarshaler id marshal eval)) w =
      (match marshal ctx (w.record (.marshalCode id)) with
        | .ok data w1 => .ok (.str data) w1
        | .fail err w1 => .fail err w1
        | .noReturn why => .noReturn why) ∧
    MarshalCode env (fuel + 2) ctx (Marshal (.codeMarshaler id marshal eval)) w =
      marshal ctx (w.record (.marshalCode id)) ∧
    Expression.Eval (MarshalCode env (fuel + 1)) ctx
        (Marshal (.codeMarshaler id marshal eval)) w =
      Expression.Eval (MarshalCode env (fuel + 1)) ctx
        (Marshal (.codeMarshaler id marshal eval1)) w ∧
    Expression.Eval (MarshalCode env (fuel + 1)) ctx (Marshal (Marshal n)) w =
      (match Marshaler.MarshalCode (MarshalCode env fuel) ctx n w with
        | .ok data w1 => .ok (.str data) w1
        | .fail err w1 => .fail err w1
        | .noReturn why => .noReturn why) := by
  refine ⟨?_, ?_, rfl, rfl⟩
  · show Marshaler.Eval _ ctx _ w = _
    unfold Marshaler.Eval
    show (match marshal ctx (w.record (.marshalCode id)) with
      | .ok data w => Outcome.ok (Value.str data) w
      | .fail err w => .fail (trace.Wrap err) w
      | .noReturn why => .noReturn why) = _
    cases marshal ctx (w.record (.marshalCode id)) <;> rfl
  · show Marshaler.MarshalCode _ ctx _ w = _
    unfold Marshaler.MarshalCode
    show (match marshal ctx (w.record (.marshalCode id)) with
      | .ok data w => Outcome.ok data w
      | .fail err w => .fail (trace.Wrap err) w
      | .noReturn why => .noReturn why) = _
    cases marshal ctx (w.record (.marshalCode id)) <;> rfl

/-- C9: `Unquote(e).MarshalCode(ctx)` evaluates `e` once and returns what
`MarshalCode(ctx, result)` returns for the value `e.Eval(ctx)` returned, in the world the
evaluation left; when `e.Eval(ctx)` fails it fails with that error and produces no bytes.
For an expression defined elsewhere the evaluation is the one recorded call of its `Eval`
method. -/
theorem Unquote_MarshalCode (env : Env) (fuel : Nat) (ctx : ExecutionContext) (e : Value)
    (w : World) :
    MarshalCode env (fuel + 1) ctx (Unquote e) w =
      (match Expression.Eval (MarshalCode env fuel) ctx e w with
        | .ok result w1 => MarshalCode env fuel ctx result w1
        | .fail err w1 => .fail err w1
        | .noReturn why => .noReturn why) ∧
    (∀ (id : Nat) (eval : ExecutionContext → World → Outcome Value),
      e = .expression id eval →
        Expression.Eval (MarshalCode env fuel) ctx e w = eval ctx (w.record (.eval id)) ∧
        (w.record (.eval id)).evalCount id = w.evalCount id + 1) ∧
    (∀ (id : Nat) (marshal : ExecutionContext → World → Outcome String)
        (eval : ExecutionContext → World → Outcome Value),
      e = .codeMarshaler id marshal (some eval) →
        Expression.Eval (MarshalCode env fuel) ctx e w = eval ctx (w.record (.eval id)) ∧
        (w.record (.eval id)).evalCount id = w.evalCount id + 1) ∧
    (∀ (result : Value) (w1 : World) (more : Nat),
      Expression.Eval (MarshalCode env fuel) ctx e w = .ok result w1 →
      MarshalCode env (fuel + 1) ctx (Unquote e) w ≠ .noReturn .outOfFuel →
        MarshalCode env (fuel + 1 + more) ctx result w1 =
          MarshalCode env (fuel + 1) ctx (Unquote e) w) := by
  have hcount : ∀ id : Nat, (w.record (.eval id)).evalCount id = w.evalCount id + 1 := by
    intro id
    simp [World.record, World.evalCount]
  have hmain : MarshalCode env (fuel + 1) ctx (Unquote e) w =
      (match Expression.Eval (MarshalCode env fuel) ctx e w with
        | .ok result w1 => MarshalCode env fuel ctx result w1
        | .fail err w1 => .fail err w1
        | .noReturn why => .noReturn why) := by
    show Unquoter.MarshalCode (MarshalCode env fuel) ctx e w = _
    unfold Unquoter.MarshalCode
    cases Expression.Eval (MarshalCode env fuel) ctx e w <;> rfl
  refine ⟨hmain, ?_, ?_, ?_⟩
  · rintro id eval rfl
    exact ⟨rfl, hcount id⟩
  · rintro id marshal eval rfl
    exact ⟨rfl, hcount id⟩
  · intro result w1 more hev hret
    rw [hmain, hev] at hret ⊢
    simp only at hret ⊢
    rw [Nat.add_assoc]
    exact MarshalCode_mono env fuel (1 + more) ctx result w1 hret

/-- C10: `Unquote(e).Eval(ctx)` fails with a BadParameter error for every expression `e`
and every context, and the world is left as it was: `e` is not evaluated.
`Marshal(e).Eval(ctx)` is different: it returns the text whenever `e` marshals. -/
theorem Unquote_Eval (env : Env) (fuel : Nat) (ctx : ExecutionContext) (e : Value)
    (w : World) :
    Expression.Eval (MarshalCode env fuel) ctx (Unquote e) w =
      .fail (trace.BadParameter "unquote can not be evaluated") w ∧
    trace.IsBadParameter (trace.BadParameter "unquote can not be evaluated") = true ∧
    (∀ (data : String) (w1 : World), MarshalCode env fuel ctx e w = .ok data w1 →
      Expression.Eval (MarshalCode env fuel) ctx (Marshal e) w = .ok (.str data) w1) := by
  refine ⟨rfl, rfl, ?_⟩
  intro data w1 h
  exact ((Marshal_Eval_aux env fuel ctx e w data w1).mp h)

/-- A run of C9: the expression evaluates to `3`, its `Eval` is recorded once, and the
text is that of `3`; an expression that fails makes the unquote fail with its error. -/
theorem Unquote_MarshalCode_witness :
    MarshalCode exampleEnv 2 emptyCtx (Unquote (.expression 7 (fun _ w => .ok (.int 3) w)))
        freshWorld = .ok "3" ⟨[.eval 7]⟩ ∧
    MarshalCode exampleEnv 2 emptyCtx
        (Unquote (.expression 7 (fun _ w => .fail (trace.BadParameter "no value") w)))
        freshWorld = .fail (trace.BadParameter "no value") ⟨[.eval 7]⟩ :=
  ⟨(Unquote_MarshalCode exampleEnv 1 emptyCtx
      (.expression 7 (fun _ w => .ok (.int 3) w)) freshWorld).1.trans rfl,
   (Unquote_MarshalCode exampleEnv 1 emptyCtx
      (.expression 7 (fun _ w => .fail (trace.BadParameter "no value") w)) freshWorld).1.trans
      rfl⟩

/-- A run of C10: unquoting the literal `5` cannot be evaluated, marshaling it can. -/
theorem Unquote_Eval_witness :
    Expression.Eval (MarshalCode exampleEnv 1) emptyCtx (Unquote (.int 5)) freshWorld =
      .fail (trace.BadParameter "unquote can not be evaluated") freshWorld ∧
    Expression.Eval (MarshalCode exampleEnv 1) emptyCtx (Marshal (.int 5)) freshWorld =
      .ok (.str "5") freshWorld :=
  ⟨(Unquote_Eval exampleEnv 1 emptyCtx (.int 5) freshWorld).1,
   (Unquote_Eval exampleEnv 1 emptyCtx (.int 5) freshWorld).2.2 "5" freshWorld (by decide)⟩

/-- A run of C7: evaluating the quoted call `f(1)` gives its text as a string. -/
theorem Marshal_Eval_witness :
    Expression.Eval (MarshalCode exampleEnv 2) emptyCtx
        (Marshal (.fnCall "" .nil "f" [.int 1])) freshWorld = .ok (.str "f(1)") freshWorld :=
  ((Marshal_Eval exampleEnv 2 emptyCtx (.fnCall "" .nil "f" [.int 1]) freshWorld).1
    "f(1)" freshWorld).mp (by decide)

/-- A code marshaler that is an expression too is quoted by its `MarshalCode` method; its
`Eval`, which would fail, is not called. -/
theorem Marshal_quotes_code_marshalers_witness :
    Expression.Eval (MarshalCode exampleEnv 1) emptyCtx
        (Marshal (.codeMarshaler 9 (fun _ w => .ok "ssh.Copy()" w)
          (some (fun _ w => .fail (trace.BadParameter "no host") w)))) freshWorld =
      .ok (.str "ssh.Copy()") ⟨[.marshalCode 9]⟩ :=
  (Marshal_quotes_code_marshalers exampleEnv 0 emptyCtx freshWorld 9
    (fun _ w => .ok "ssh.Copy()" w) (some (fun _ w => .fail (trace.BadParameter "no host") w))
    none .nil).1.trans rfl

/-- A run of C2: a slice of two strings. -/
theorem MarshalCode_strings_witness :
    MarshalCode exampleEnv 2 emptyCtx (.strings ["a", "b c"]) freshWorld =
      .ok "Strings(\"a\", \"b c\")" freshWorld :=
  (MarshalCode_strings exampleEnv 0 emptyCtx ["a", "b c"] freshWorld).1.trans (by decide)

/-! ## Dispatch -/

/-- C11: on a value that implements `CodeMarshaler`, `MarshalCode` returns what the
`MarshalCode` method of the value returns, whether or not the value is an `Expression`
too: for a type defined elsewhere only the call of its `MarshalCode` is recorded and the
outcome does not depend on its `Eval`; a `*CopyAction` is marshaled by
`CopyAction.MarshalCode`, whatever the copy machinery would do, so marshaling it does not
run it.  On a value that implements `Expression` and not `CodeMarshaler`, `MarshalCode`
calls `Eval` once and returns what `MarshalCode` returns on the result, or the error of
the evaluation. -/
theorem MarshalCode_dispatch (env : Env) (fuel : Nat) (ctx : ExecutionContext) (w : World) :
    (∀ (id : Nat) (marshal : ExecutionContext → World → Outcome String)
        (eval : Option (ExecutionContext → World → Outcome Value)),
      MarshalCode env (fuel + 1) ctx (.codeMarshaler id marshal eval) w =
        marshal ctx (w.record (.marshalCode id))) ∧
    (∀ node : Value,
      MarshalCode env (fuel + 1) ctx (.marshaler node) w =
        Marshaler.MarshalCode (MarshalCode env fuel) ctx node w) ∧
    (∀ node : Value,
      MarshalCode env (fuel + 1) ctx (.unquoter node) w =
        Unquoter.MarshalCode (MarshalCode env fuel) ctx node w) ∧
    (∀ f : FnCall,
      MarshalCode env (fuel + 1) ctx f.toValue w =
        FnCall.MarshalCode (MarshalCode env fuel) ctx f w) ∧
    (∀ (sys : ssh.Sys) (wire wire1 : ssh.Wire) (k id : Nat) (a : ssh.CopyAction),
      MarshalCode env (fuel + 1) ctx
          (ssh.CopyAction.toValue sys wire (MarshalCode env k) id a) w =
        ssh.CopyAction.MarshalCode sys (MarshalCode env k) ctx a
          (w.record (.marshalCode id)) ∧
      MarshalCode env (fuel + 1) ctx
          (ssh.CopyAction.toValue sys wire (MarshalCode env k) id a) w =
        MarshalCode env (fuel + 1) ctx
          (ssh.CopyAction.toValue sys wire1 (MarshalCode env k) id a) w) ∧
    (∀ (id : Nat) (eval : ExecutionContext → World → Outcome Value),
      MarshalCode env (fuel + 1) ctx (.expression id eval) w =
        (match eval ctx (w.record (.eval id)) with
          | .ok r w1 => MarshalCode env fuel ctx r w1
          | .fail err w1 => .fail err w1
          | .noReturn why => .noReturn why)) ∧
    (∀ (id : Nat) (eval : ExecutionContext → World → Outcome Value) (r : Value)
        (w1 : World) (more : Nat),
      eval ctx (w.record (.eval id)) = .ok r w1 →
      MarshalCode env (fuel + 1) ctx (.expression id eval) w ≠ .noReturn .outOfFuel →
        MarshalCode env (fuel + 1 + more) ctx r w1 =
          MarshalCode env (fuel + 1) ctx (.expression id eval) w) := by
  have hexpr : ∀ (id : Nat) (eval : ExecutionContext → World → Outcome Value),
      MarshalCode env (fuel + 1) ctx (.expression id eval) w =
        (match eval ctx (w.record (.eval id)) with
          | .ok r w1 => MarshalCode env fuel ctx r w1
          | .fail err w1 => .fail err w1
          | .noReturn why => .noReturn why) := by
    intro id eval
    show MarshalCodeBody env (MarshalCode env fuel) ctx (.expression id eval) w = _
    simp only [MarshalCodeBody]
    cases eval ctx (w.record (.eval id)) <;> rfl
  refine ⟨fun _ _ _ => rfl, fun _ => rfl, fun _ => rfl, fun _ => rfl,
    fun _ _ _ _ _ _ => ⟨rfl, rfl⟩, hexpr, ?_⟩
  intro id eval r w1 more hev hret
  rw [hexpr, hev] at hret ⊢
  simp only at hret ⊢
  rw [Nat.add_assoc]
  exact MarshalCode_mono env fuel (1 + more) ctx r w1 hret

/-- A run of C11: a copy action whose `Eval` would dial and copy marshals to the text of
the call, and only the evaluations of its two paths are recorded next to the call of its
`MarshalCode`; an expression without `MarshalCode` is evaluated and its result marshaled. -/
theorem MarshalCode_dispatch_witness :
    MarshalCode exampleEnv 1 emptyCtx
        (ssh.CopyAction.toValue ssh.exampleSys ssh.exampleWire (MarshalCode exampleEnv 3) 9
          { host := .nil
            source := ssh.Local (.expression 3 (fun _ w => .ok (.str "/a") w))
            destination := ssh.Remote (.expression 4 (fun _ w => .ok (.str "/b") w))
            client := none }) freshWorld =
      .ok ("ssh.Copy(ssh.Target\x7bLocal:true,Path:\"/a\"\x7d, " ++
          "ssh.Target\x7bLocal:false,Path:\"/b\"\x7d)")
        ⟨[.marshalCode 9, .eval 3, .eval 4]⟩ ∧
    MarshalCode exampleEnv 2 emptyCtx (.expression 7 (fun _ w => .ok (.int 3) w))
        freshWorld = .ok "3" ⟨[.eval 7]⟩ :=
  ⟨((MarshalCode_dispatch exampleEnv 0 emptyCtx freshWorld).2.2.2.2.1
      ssh.exampleSys ssh.exampleWire ssh.exampleWire 3 9 _).1.trans (by decide),
   ((MarshalCode_dispatch exampleEnv 1 emptyCtx freshWorld).2.2.2.2.2.1 7 _).trans
      (by decide)⟩

/-! ## Slices of records and the identity of a record type -/

theorem FieldByName_struct (name pkgPath : String) (fields promoted : List StructField)
    (x : String) :
    (RType.struct name pkgPath fields promoted).FieldByName x =
      some (match fields.find? (fun f => f.name == x) with
        | some field => some field
        | none => promoted.find? (fun f => f.name == x)) := by
  cases h : fields.find? (fun f => f.name == x) <;> simp [RType.FieldByName, h]

theorem StructPackageName_struct (env : Env) (name pkgPath : String)
    (fields promoted : List StructField) (r : Option StructField)
    (hr : (RType.struct name pkgPath fields promoted).FieldByName env.metadataFieldName =
      some r) :
    StructPackageName env (.struct name pkgPath fields promoted) =
      some (match r with
        | none => if pkgPath = corePkgPath then "" else filepath.Base pkgPath
        | some field => filepath.Base field.type.pkgPath) := by
  simp only [StructPackageName, hr]
  cases r with
  | none => by_cases h : pkgPath = corePkgPath <;> simp [h, RType.PkgPath]
  | some field => rfl

theorem StructName_struct (env : Env) (name pkgPath : String)
    (fields promoted : List StructField) (r : Option StructField)
    (hr : (RType.struct name pkgPath fields promoted).FieldByName env.metadataFieldName =
      some r) :
    StructName env (.struct name pkgPath fields promoted) =
      some (if name = "" then
        (match r with
          | none => ""
          | some field => field.type.name)
        else name) := by
  unfold StructName
  simp only [hr, RType.Name]
  by_cases h : name = ""
  · cases r <;> simp [h]
  · simp [h]

theorem writeTypeName_eq (env : Env) (t : RType) (buf packageName structName : String)
    (hp : StructPackageName env t = some packageName)
    (hn : StructName env t = some structName) :
    writeTypeName env t buf =
      some (buf ++ (if packageName = "" then "" else packageName ++ ".") ++ structName) := by
  unfold writeTypeName
  rw [hp, hn]
  by_cases h : packageName = "" <;> simp [h]

/-- C12, as the code has it: a slice of records marshals to `[]`, the package name and a
dot unless the package name is empty, the struct name, `{`, the texts of the elements in
order joined by `,`, and `}`, when the elements marshal successfully; the error of the
first element that fails is returned otherwise.  The struct name is the name of the
element type when it has one; there is no check for an empty name and no not-implemented
error for it. -/
theorem MarshalCode_struct_slice (env : Env) (fuel : Nat) (ctx : ExecutionContext)
    (name pkgPath : String) (fields promoted : List StructField) (elems : List Value)
    (w : World) :
    ∃ packageName structName : String,
      StructPackageName env (.struct name pkgPath fields promoted) = some packageName ∧
      StructName env (.struct name pkgPath fields promoted) = some structName ∧
      (name ≠ "" → structName = name) ∧
      (∀ (texts : List String) (w1 : World),
        marshalEach (MarshalCode env fuel) ctx elems w = .ok texts w1 →
        MarshalCode env (fuel + 1) ctx (.slice (.struct name pkgPath fields promoted) elems) w =
          .ok ("[]" ++ (if packageName = "" then "" else packageName ++ ".") ++ structName ++
            "\x7b" ++ ",".intercalate texts ++ "\x7d") w1) ∧
      (∀ (err : Error) (w1 : World),
        marshalEach (MarshalCode env fuel) ctx elems w = .fail err w1 →
        MarshalCode env (fuel + 1) ctx (.slice (.struct name pkgPath fields promoted) elems) w =
          .fail err w1) := by
  have hr := FieldByName_struct name pkgPath fields promoted env.metadataFieldName
  obtain ⟨packageName, hp⟩ : ∃ pn, StructPackageName env
      (.struct name pkgPath fields promoted) = some pn :=
    ⟨_, StructPackageName_struct env name pkgPath fields promoted _ hr⟩
  obtain ⟨structName, hn⟩ : ∃ sn, StructName env
      (.struct name pkgPath fields promoted) = some sn :=
    ⟨_, StructName_struct env name pkgPath fields promoted _ hr⟩
  have hw := writeTypeName_eq env (.struct name pkgPath fields promoted) "[]" packageName structName
    hp hn
  refine ⟨packageName, structName, hp, hn, ?_, ?_, ?_⟩
  · intro h
    have h2 := StructName_struct env name pkgPath fields promoted _ hr
    rw [hn] at h2
    simpa [h] using h2
  · intro texts w1 hok
    show MarshalCodeBody env (MarshalCode env fuel) ctx _ w = _
    simp only [MarshalCodeBody, hw, writeItems_zero, hok, String.append_assoc]
  · intro err w1 hfail
    show MarshalCodeBody env (MarshalCode env fuel) ctx _ w = _
    simp only [MarshalCodeBody, hw, writeItems_zero, hfail]

/-- A run of the amended C12: a slice of two targets. -/
theorem MarshalCode_struct_slice_witness :
    MarshalCode exampleEnv 4 emptyCtx
        (.slice ssh.TargetType
          [(ssh.Local (.expression 3 (fun _ w => .ok (.str "/a") w))).toValue,
           (ssh.Remote (.expression 4 (fun _ w => .ok (.str "/b") w))).toValue])
        freshWorld =
      .ok ("[]ssh.Target\x7bssh.Target\x7bLocal:true,Path:\"/a\"\x7d," ++
          "ssh.Target\x7bLocal:false,Path:\"/b\"\x7d\x7d")
        ⟨[.eval 3, .eval 4]⟩ := by
  obtain ⟨packageName, structName, h1, h2, -, h4, -⟩ :=
    MarshalCode_struct_slice exampleEnv 3 emptyCtx "Target" ssh.pkgPath
      [⟨"Local", "", ⟨"bool", ""⟩, true⟩, ⟨"Path", "", ⟨"StringVar", corePkgPath⟩, true⟩]
      []
      [(ssh.Local (.expression 3 (fun _ w => .ok (.str "/a") w))).toValue,
       (ssh.Remote (.expression 4 (fun _ w => .ok (.str "/b") w))).toValue] freshWorld
  have hp : packageName = "ssh" := by
    have : some packageName = some "ssh" := by rw [← h1]; decide
    exact Option.some.inj this
  have hn : structName = "Target" := by
    have : some structName = some "Target" := by rw [← h2]; decide
    exact Option.some.inj this
  subst hp hn
  exact (h4 ["ssh.Target\x7bLocal:true,Path:\"/a\"\x7d",
    "ssh.Target\x7bLocal:false,Path:\"/b\"\x7d"] ⟨[.eval 3, .eval 4]⟩ (by decide)).trans
    (by decide)

/-- C12 as stated fails: a slice whose element type is an anonymous struct type marshals
successfully, with an empty type name, and not to a not-implemented error. -/
theorem MarshalCode_anonymous_struct_slice :
    StructName exampleEnv (.struct "" "" [⟨"A", "", ⟨"int", ""⟩, true⟩] []) = some "" ∧
    MarshalCode exampleEnv 3 emptyCtx
        (.slice (.struct "" "" [⟨"A", "", ⟨"int", ""⟩, true⟩] [])
          [.struct (.struct "" "" [⟨"A", "", ⟨"int", ""⟩, true⟩] []) [.int 1]]) freshWorld =
      .ok "[]..\x7b..\x7bA:1\x7d\x7d" freshWorld ∧
    MarshalCode exampleEnv 3 emptyCtx
        (.slice (.struct "" "" [⟨"A", "", ⟨"int", ""⟩, true⟩] []) []) freshWorld =
      .ok "[]..\x7b\x7d" freshWorld := by
  refine ⟨by decide, by decide, by decide⟩

theorem takeWhile_append_stop {α : Type} (p : α → Bool) (l r : List α) (a : α)
    (hl : ∀ x ∈ l, p x = true) (ha : p a = false) :
    (l ++ a :: r).takeWhile p = l := by
  induction l with
  | nil => simp [List.takeWhile, ha]
  | cons x xs ih =>
    have hx : p x = true := hl x (List.mem_cons_self _ _)
    have hrest := ih (fun y hy => hl y (List.mem_cons_of_mem _ hy))
    rw [List.cons_append, List.takeWhile_cons, hx, hrest]
    rfl

/-- The function `filepath.Base` returns the last element of a path that ends in one. -/
theorem filepath_Base_last (dir last : List Char) (hne : last ≠ []) (hsl : '/' ∉ last) :
    filepath.Base (String.mk (dir ++ '/' :: last)) = String.mk last := by
  have hpath : String.mk (dir ++ '/' :: last) ≠ "" := by
    intro h
    have := congrArg String.data h
    simp at this
  have hrev : (dir ++ '/' :: last).reverse = last.reverse ++ '/' :: dir.reverse := by simp
  obtain ⟨x, xs, hx⟩ : ∃ x xs, last.reverse = x :: xs := by
    cases hlr : last.reverse with
    | nil => exact absurd (List.reverse_eq_nil_iff.mp hlr) hne
    | cons x xs => exact ⟨x, xs, rfl⟩
  have hxne : (x == '/') = false := by
    have hxm : x ∈ last := by
      have : x ∈ last.reverse := by rw [hx]; exact List.mem_cons_self _ _
      exact List.mem_reverse.mp this
    have : x ≠ '/' := fun h => hsl (h ▸ hxm)
    simpa using this
  have hdrop : ((dir ++ '/' :: last).reverse.dropWhile (· == '/')) =
      (dir ++ '/' :: last).reverse := by
    rw [hrev, hx]
    simp [List.dropWhile, hxne]
  have htake : ((dir ++ '/' :: last).reverse.takeWhile (· != '/')) = last.reverse := by
    rw [hrev]
    apply takeWhile_append_stop
    · intro y hy
      have hym : y ∈ last := List.mem_reverse.mp hy
      have : y ≠ '/' := fun h => hsl (h ▸ hym)
      simpa using this
    · simp
  unfold filepath.Base
  simp only [hpath, if_false, hdrop, List.reverse_reverse, htake, hne]

/-- C13, as the code has it: for a record type that carries the metadata field, declared
in it or promoted from an embedded struct, which is when `FieldByName` finds it,
`StructPackageName` returns the last path element of the package path of the original
type, whatever the name and the package of the wrapper are, and `StructName` returns the
name of the original type when the wrapper type has no name of its own (a named wrapper
keeps its name); for a record type on which `FieldByName` finds no metadata field the
package name is the last element of its own package path, or empty when the type belongs to
the core package, and the name is its own. -/
theorem struct_identity (env : Env) (name pkgPath : String)
    (fields promoted : List StructField) :
    (∀ field : StructField,
      (RType.struct name pkgPath fields promoted).FieldByName env.metadataFieldName =
          some (some field) →
        StructPackageName env (.struct name pkgPath fields promoted) =
          some (filepath.Base field.type.pkgPath) ∧
        StructName env (.struct name pkgPath fields promoted) =
          some (if name = "" then field.type.name else name)) ∧
    ((RType.struct name pkgPath fields promoted).FieldByName env.metadataFieldName =
          some none →
        StructPackageName env (.struct name pkgPath fields promoted) =
          some (if pkgPath = corePkgPath then "" else filepath.Base pkgPath) ∧
        StructName env (.struct name pkgPath fields promoted) = some name) ∧
    (∀ field : StructField,
      fields.find? (fun f => f.name == env.metadataFieldName) = some field →
        (RType.struct name pkgPath fields promoted).FieldByName env.metadataFieldName =
          some (some field)) ∧
    (fields.find? (fun f => f.name == env.metadataFieldName) = none →
        (RType.struct name pkgPath fields promoted).FieldByName env.metadataFieldName =
          some (promoted.find? (fun f => f.name == env.metadataFieldName))) ∧
    (∀ dir last : List Char, last ≠ [] → '/' ∉ last →
      filepath.Base (String.mk (dir ++ '/' :: last)) = String.mk last) := by
  refine ⟨?_, ?_, ?_, ?_, filepath_Base_last⟩
  · intro field hf
    rw [StructPackageName_struct env name pkgPath fields promoted _ hf,
      StructName_struct env name pkgPath fields promoted _ hf]
    exact ⟨rfl, rfl⟩
  · intro hf
    rw [StructPackageName_struct env name pkgPath fields promoted _ hf,
      StructName_struct env name pkgPath fields promoted _ hf]
    refine ⟨rfl, ?_⟩
    by_cases h : name = "" <;> simp [h]
  · intro field hf
    rw [FieldByName_struct, hf]
  · intro hf
    rw [FieldByName_struct, hf]

/-- A run of the amended C13: an anonymous wrapper of a type `Orig` of package `orig` is
printed as `orig.Orig`, also when the metadata field comes to it from an embedded struct;
a named type without metadata field outside the core package is printed by its own package
and name, and inside the core package without qualifier. -/
theorem struct_identity_witness :
    StructPackageName exampleEnv
        (.struct "" "" [⟨"Metadata", "", ⟨"Orig", "example.com/pkg/orig"⟩, true⟩] []) =
      some "orig" ∧
    StructName exampleEnv
        (.struct "" "" [⟨"Metadata", "", ⟨"Orig", "example.com/pkg/orig"⟩, true⟩] []) =
      some "Orig" ∧
    StructPackageName exampleEnv
        (.struct "" "" [⟨"Base", "", ⟨"Base", "example.com/pkg/wrap"⟩, true⟩]
          [⟨"Metadata", "", ⟨"Orig", "example.com/pkg/orig"⟩, true⟩]) = some "orig" ∧
    StructName exampleEnv
        (.struct "" "" [⟨"Base", "", ⟨"Base", "example.com/pkg/wrap"⟩, true⟩]
          [⟨"Metadata", "", ⟨"Orig", "example.com/pkg/orig"⟩, true⟩]) = some "Orig" ∧
    StructPackageName exampleEnv ssh.TargetType = some "ssh" ∧
    StructName exampleEnv ssh.TargetType = some "Target" ∧
    StructPackageName exampleEnv (.struct "Spec" corePkgPath [] []) = some "" := by
  have h1 := (struct_identity exampleEnv "" ""
    [⟨"Metadata", "", ⟨"Orig", "example.com/pkg/orig"⟩, true⟩] []).1
    ⟨"Metadata", "", ⟨"Orig", "example.com/pkg/orig"⟩, true⟩ (by decide)
  have h2 := (struct_identity exampleEnv "" ""
    [⟨"Base", "", ⟨"Base", "example.com/pkg/wrap"⟩, true⟩]
    [⟨"Metadata", "", ⟨"Orig", "example.com/pkg/orig"⟩, true⟩]).1
    ⟨"Metadata", "", ⟨"Orig", "example.com/pkg/orig"⟩, true⟩ (by decide)
  have h3 := (struct_identity exampleEnv "Target" ssh.pkgPath
    [⟨"Local", "", ⟨"bool", ""⟩, true⟩,
     ⟨"Path", "", ⟨"StringVar", corePkgPath⟩, true⟩] []).2.1 (by decide)
  have h4 := (struct_identity exampleEnv "Spec" corePkgPath [] []).2.1 (by decide)
  refine ⟨h1.1.trans (by decide), h1.2.trans (by decide), h2.1.trans (by decide),
    h2.2.trans (by decide), h3.1.trans (by decide), h3.2, h4.1.trans (by decide)⟩

/-- C13 as stated fails: a wrapper type that has a name of its own and carries the
metadata field is printed under its own name, next to the package of the original type. -/
theorem StructName_named_wrapper :
    StructName exampleEnv
        (.struct "Wrapper" "example.com/pkg/wrap"
          [⟨"Metadata", "", ⟨"Orig", "example.com/pkg/orig"⟩, true⟩] []) =
      some "Wrapper" ∧
    StructPackageName exampleEnv
        (.struct "Wrapper" "example.com/pkg/wrap"
          [⟨"Metadata", "", ⟨"Orig", "example.com/pkg/orig"⟩, true⟩] []) =
      some "orig" ∧
    MarshalCode exampleEnv 1 emptyCtx
        (.struct (.struct "Wrapper" "example.com/pkg/wrap"
          [⟨"Metadata", "", ⟨"Orig", "example.com/pkg/orig"⟩, true⟩] [])
          [.other "reflect.Type"])
        freshWorld = .ok "orig.Wrapper\x7b\x7d" freshWorld := by
  refine ⟨by decide, by decide, by decide⟩

/-! ## Binding a copy action to a client -/

namespace ssh

theorem BindClient_of_bound (h : Heap) (s : Nat) (a : CopyAction) (c0 : Client)
    (client : Option Client) (hs : h[s]? = some a) (hb : a.client = some c0) :
    CopyAction.BindClient h s client = .fail (trace.AlreadyExists "client already set") h := by
  simp [CopyAction.BindClient, hs, hb]

theorem BindClient_of_unbound (h : Heap) (s : Nat) (t : CopyAction) (client : Option Client)
    (hs : h[s]? = some t) (hu : t.client = none) :
    CopyAction.BindClient h s client = .ok h.length (h ++ [{ t with client := client }]) := by
  simp [CopyAction.BindClient, hs, hu]

theorem lt_length_of_getElem? (h : Heap) (s : Nat) (a : CopyAction) (hs : h[s]? = some a) :
    s < h.length := by
  by_contra hlt
  have : h[s]? = none := List.getElem?_eq_none (by omega)
  rw [this] at hs
  cases hs

theorem getElem?_append_old (h extra : Heap) (s : Nat) (a : CopyAction)
    (hs : h[s]? = some a) : (h ++ extra)[s]? = some a := by
  have hlt := lt_length_of_getElem? h s a hs
  rw [List.getElem?_append_left hlt]
  exact hs

theorem bindAll_eq (h : Heap) (s : Nat) (t : CopyAction) (cs : List Client)
    (hs : h[s]? = some t) (hu : t.client = none) :
    bindAll h s cs =
      some (List.range' h.length cs.length,
        h ++ cs.map (fun c => { t with client := some c })) := by
  induction cs generalizing h with
  | nil => simp [bindAll]
  | cons c cs ih =>
    have hnext := ih (h ++ [{ t with client := some c }]) (getElem?_append_old h _ s t hs)
    simp only [bindAll, BindClient_of_unbound h s t (some c) hs hu, hnext]
    simp [List.range'_succ]

end ssh

/-- C14: on a copy action that is already bound, `BindClient` returns an error of the
AlreadyExists class and no action, for every client (nil included), and the heap of
actions is the one it found: every field of the bound action, host, source, destination
and client, is as before. -/
theorem BindClient_bound (h : ssh.Heap) (s : Nat) (a : ssh.CopyAction) (c0 : ssh.Client)
    (client : Option ssh.Client) (hs : h[s]? = some a) (hb : a.client = some c0) :
    ssh.CopyAction.BindClient h s client =
      .fail (trace.AlreadyExists "client already set") h ∧
    trace.IsAlreadyExists (trace.AlreadyExists "client already set") = true ∧
    h[s]? = some a :=
  ⟨ssh.BindClient_of_bound h s a c0 client hs hb, rfl, hs⟩

/-- A run of C14: binding an action that carries client 1 to client 2. -/
theorem BindClient_bound_witness :
    ssh.CopyAction.BindClient
        [{ host := .nil, source := ssh.Local .nil, destination := ssh.Remote .nil,
           client := some ⟨1, ⟨"root"⟩⟩ }] 0 (some ⟨2, ⟨"root"⟩⟩) =
      .fail (trace.AlreadyExists "client already set")
        [{ host := .nil, source := ssh.Local .nil, destination := ssh.Remote .nil,
           client := some ⟨1, ⟨"root"⟩⟩ }] :=
  (BindClient_bound
    [{ host := .nil, source := ssh.Local .nil, destination := ssh.Remote .nil,
       client := some ⟨1, ⟨"root"⟩⟩ }] 0
    { host := .nil, source := ssh.Local .nil, destination := ssh.Remote .nil,
      client := some ⟨1, ⟨"root"⟩⟩ } ⟨1, ⟨"root"⟩⟩ (some ⟨2, ⟨"root"⟩⟩) rfl rfl).1

/-- C15: on an unbound template `t`, `BindClient(c)` succeeds and returns a new action, at
an address that was not in use, whose host, source and destination are those of `t` and
whose client is `c`; the template is left as it was, unbound.  So successive calls on the
same template, one per client, all succeed, the i-th returning the i-th new action, and
`BindClient` on any of the actions they returned fails. -/
theorem BindClient_template (h : ssh.Heap) (s : Nat) (t : ssh.CopyAction) (c : ssh.Client)
    (hs : h[s]? = some t) (hu : t.client = none) :
    ssh.CopyAction.BindClient h s (some c) =
      .ok h.length (h ++ [{ t with client := some c }]) ∧
    (h ++ [{ t with client := some c }])[h.length]? = some { t with client := some c } ∧
    (h ++ [{ t with client := some c }])[s]? = some t ∧
    s ≠ h.length ∧
    (∀ cs : List ssh.Client,
      ssh.bindAll h s cs =
        some (List.range' h.length cs.length,
          h ++ cs.map (fun c => { t with client := some c })) ∧
      (h ++ cs.map (fun c => ({ t with client := some c } : ssh.CopyAction)))[s]? = some t ∧
      (∀ (q : Nat) (c1 : Option ssh.Client), q ∈ List.range' h.length cs.length →
        ssh.CopyAction.BindClient
            (h ++ cs.map (fun c => { t with client := some c })) q c1 =
          .fail (trace.AlreadyExists "client already set")
            (h ++ cs.map (fun c => { t with client := some c })))) := by
  have hlt := ssh.lt_length_of_getElem? h s t hs
  refine ⟨ssh.BindClient_of_unbound h s t (some c) hs hu, by simp,
    ssh.getElem?_append_old h _ s t hs, by omega, ?_⟩
  intro cs
  refine ⟨ssh.bindAll_eq h s t cs hs hu, ssh.getElem?_append_old h _ s t hs, ?_⟩
  intro q c1 hq
  rw [List.mem_range'_1] at hq
  obtain ⟨hq1, hq2⟩ := hq
  have hi : q - h.length < cs.length := by omega
  apply ssh.BindClient_of_bound _ q { t with client := some (cs.get ⟨q - h.length, hi⟩) }
    (cs.get ⟨q - h.length, hi⟩) c1 _ rfl
  rw [List.getElem?_append_right (by omega)]
  simp [List.getElem?_map, List.getElem?_eq_getElem hi]

/-- A run of C15: a template is bound for two hosts in turn; both calls succeed, the
template stays unbound, and binding the first bound action again fails. -/
theorem BindClient_template_witness :
    ssh.bindAll
        [{ host := .nil, source := ssh.Local .nil, destination := ssh.Remote .nil,
           client := none }] 0 [⟨1, ⟨"root"⟩⟩, ⟨2, ⟨"root"⟩⟩] =
      some ([1, 2],
        [{ host := .nil, source := ssh.Local .nil, destination := ssh.Remote .nil,
           client := none },
         { host := .nil, source := ssh.Local .nil, destination := ssh.Remote .nil,
           client := some ⟨1, ⟨"root"⟩⟩ },
         { host := .nil, source := ssh.Local .nil, destination := ssh.Remote .nil,
           client := some ⟨2, ⟨"root"⟩⟩ }]) :=
  ((BindClient_template
    [{ host := .nil, source := ssh.Local .nil, destination := ssh.Remote .nil,
       client := none }] 0
    { host := .nil, source := ssh.Local .nil, destination := ssh.Remote .nil,
      client := none } ⟨1, ⟨"root"⟩⟩ rfl rfl).2.2.2.2
    [⟨1, ⟨"root"⟩⟩, ⟨2, ⟨"root"⟩⟩]).1

/-! ## The constructor `Copy` -/

namespace ssh

theorem Target_ofValue_toValue (t : Target) : Target.ofValue t.toValue = some t := by
  simp [Target.ofValue, Target.toValue]

theorem Copy_two (sys : Sys) (h : Heap) (a0 a1 : Value) :
    Copy sys h [a0, a1] =
      match Target.ofValue a0, Target.ofValue a1 with
      | some source, some destination =>
        .ok h.length (h ++ [{ host := .nil, source := source, destination := destination,
                              client := none }])
      | none, _ =>
        .fail (trace.BadParameter "expected first argument to be ssh.Local or ssh.Remote") h
      | some _, none =>
        .fail (trace.BadParameter "expected second argument to be ssh.Local or ssh.Remote") h := by
  simp only [Copy]
  cases Target.ofValue a0 <;> cases Target.ofValue a1 <;> rfl

theorem Copy_three (sys : Sys) (h : Heap) (a0 a1 a2 : Value) :
    Copy sys h [a0, a1, a2] =
      if a0.isExpression = false then
        .fail (trace.BadParameter
          ("expected first argument to be string, got " ++ sys.fmtT a0)) h
      else
        match sys.ExpectString a0, Target.ofValue a1, Target.ofValue a2 with
        | some err, _, _ =>
          .fail (trace.BadParameter ("expected first argument to be string: " ++ err.msg)) h
        | none, none, _ =>
          .fail (trace.BadParameter
            "expected second argument to be ssh.Local or ssh.Remote") h
        | none, some _, none =>
          .fail (trace.BadParameter
            "expected third argument to be ssh.Local or ssh.Remote") h
        | none, some source, some destination =>
          .ok h.length (h ++ [{ host := a0, source := source, destination := destination,
                                client := none }]) := by
  simp only [Copy]
  cases hexp : a0.isExpression
  · rfl
  · simp only [Bool.not_true, Bool.false_eq_true, if_false, Bool.true_eq_false]
    cases sys.ExpectString a0 <;> cases Target.ofValue a1 <;> cases Target.ofValue a2 <;> rfl

theorem Copy_other (sys : Sys) (h : Heap) (args : List Value)
    (h2 : args.length ≠ 2) (h3 : args.length ≠ 3) :
    ∃ err, Copy sys h args = .fail err h ∧ trace.IsBadParameter err = true := by
  rcases args with _ | ⟨a0, _ | ⟨a1, _ | ⟨a2, _ | ⟨a3, rest⟩⟩⟩⟩
  · exact ⟨_, rfl, rfl⟩
  · exact ⟨_, rfl, rfl⟩
  · exact absurd rfl h2
  · exact absurd rfl h3
  · exact ⟨_, rfl, rfl⟩

end ssh

/-- C20: `Copy` succeeds exactly when it is given two arguments that are both targets, or
three arguments of which the first is an expression that `ExpectString` accepts and the
two others are targets.  It then returns a new action that is not bound and carries the
given source and destination, and the given host in the three-argument form.  In every
other case, whatever the number and the shape of the arguments, it returns a BadParameter
error and no action, and allocates nothing. -/
theorem Copy_constructor (sys : ssh.Sys) (h : ssh.Heap) (args : List Value) :
    ((∃ q h1, ssh.Copy sys h args = .ok q h1) ↔
      ((∃ a0 a1 source destination, args = [a0, a1] ∧
          ssh.Target.ofValue a0 = some source ∧ ssh.Target.ofValue a1 = some destination) ∨
       (∃ a0 a1 a2 source destination, args = [a0, a1, a2] ∧
          a0.isExpression = true ∧ sys.ExpectString a0 = none ∧
          ssh.Target.ofValue a1 = some source ∧
          ssh.Target.ofValue a2 = some destination))) ∧
    (∀ a0 a1 source destination, args = [a0, a1] →
      ssh.Target.ofValue a0 = some source → ssh.Target.ofValue a1 = some destination →
      ssh.Copy sys h args =
        .ok h.length (h ++ [{ host := .nil, source := source, destination := destination,
                              client := none }])) ∧
    (∀ a0 a1 a2 source destination, args = [a0, a1, a2] →
      a0.isExpression = true → sys.ExpectString a0 = none →
      ssh.Target.ofValue a1 = some source → ssh.Target.ofValue a2 = some destination →
      ssh.Copy sys h args =
        .ok h.length (h ++ [{ host := a0, source := source, destination := destination,
                              client := none }])) ∧
    ((¬ ∃ q h1, ssh.Copy sys h args = .ok q h1) →
      ∃ err, ssh.Copy sys h args = .fail err h ∧ trace.IsBadParameter err = true) ∧
    (∀ t : ssh.Target, ssh.Target.ofValue t.toValue = some t) := by
  have h2 : ∀ a0 a1 source destination, args = [a0, a1] →
      ssh.Target.ofValue a0 = some source → ssh.Target.ofValue a1 = some destination →
      ssh.Copy sys h args =
        .ok h.length (h ++ [{ host := .nil, source := source, destination := destination,
                              client := none }]) := by
    intro a0 a1 source destination hargs hs hd
    rw [hargs, ssh.Copy_two, hs, hd]
  have h3 : ∀ a0 a1 a2 source destination, args = [a0, a1, a2] →
      a0.isExpression = true → sys.ExpectString a0 = none →
      ssh.Target.ofValue a1 = some source → ssh.Target.ofValue a2 = some destination →
      ssh.Copy sys h args =
        .ok h.length (h ++ [{ host := a0, source := source, destination := destination,
                              client := none }]) := by
    intro a0 a1 a2 source destination hargs he hx hs hd
    rw [hargs, ssh.Copy_three, hx, hs, hd]
    simp [he]
  have hfail : (∃ q h1, ssh.Copy sys h args = .ok q h1) ∨
      ∃ err, ssh.Copy sys h args = .fail err h ∧ trace.IsBadParameter err = true := by
    by_cases hl2 : args.length = 2
    · obtain ⟨a0, a1, rfl⟩ := List.length_eq_two.mp hl2
      rw [ssh.Copy_two]
      cases ssh.Target.ofValue a0 <;> cases ssh.Target.ofValue a1
      · exact Or.inr ⟨_, rfl, rfl⟩
      · exact Or.inr ⟨_, rfl, rfl⟩
      · exact Or.inr ⟨_, rfl, rfl⟩
      · exact Or.inl ⟨_, _, rfl⟩
    · by_cases hl3 : args.length = 3
      · obtain ⟨a0, a1, a2, rfl⟩ := List.length_eq_three.mp hl3
        rw [ssh.Copy_three]
        cases he : a0.isExpression
        · exact Or.inr ⟨trace.BadParameter
            ("expected first argument to be string, got " ++ sys.fmtT a0), by simp, rfl⟩
        · cases sys.ExpectString a0 <;> cases ssh.Target.ofValue a1 <;>
            cases ssh.Target.ofValue a2 <;> simp only [Bool.true_eq_false, if_false]
          · exact Or.inr ⟨_, rfl, rfl⟩
          · exact Or.inr ⟨_, rfl, rfl⟩
          · exact Or.inr ⟨_, rfl, rfl⟩
          · exact Or.inl ⟨_, _, rfl⟩
          · exact Or.inr ⟨_, rfl, rfl⟩
          · exact Or.inr ⟨_, rfl, rfl⟩
          · exact Or.inr ⟨_, rfl, rfl⟩
          · exact Or.inr ⟨_, rfl, rfl⟩
      · exact Or.inr (ssh.Copy_other sys h args hl2 hl3)
  refine ⟨⟨?_, ?_⟩, h2, h3, ?_, ssh.Target_ofValue_toValue⟩
  · rintro ⟨q, h1, hok⟩
    by_cases hl2 : args.length = 2
    · obtain ⟨a0, a1, rfl⟩ := List.length_eq_two.mp hl2
      rw [ssh.Copy_two] at hok
      cases hs : ssh.Target.ofValue a0 <;> cases hd : ssh.Target.ofValue a1 <;>
        rw [hs, hd] at hok <;> cases hok
      exact Or.inl ⟨a0, a1, _, _, rfl, hs, hd⟩
    · by_cases hl3 : args.length = 3
      · obtain ⟨a0, a1, a2, rfl⟩ := List.length_eq_three.mp hl3
        rw [ssh.Copy_three] at hok
        cases he : a0.isExpression
        · rw [he] at hok
          simp at hok
        · rw [he] at hok
          simp only [Bool.true_eq_false, if_false] at hok
          cases hx : sys.ExpectString a0 <;> cases hs : ssh.Target.ofValue a1 <;>
            cases hd : ssh.Target.ofValue a2 <;> rw [hx, hs, hd] at hok <;> cases hok
          exact Or.inr ⟨a0, a1, a2, _, _, rfl, he, hx, hs, hd⟩
      · obtain ⟨err, herr, -⟩ := ssh.Copy_other sys h args hl2 hl3
        rw [herr] at hok
        cases hok
  · rintro (⟨a0, a1, source, destination, hargs, hs, hd⟩ |
      ⟨a0, a1, a2, source, destination, hargs, he, hx, hs, hd⟩)
    · exact ⟨_, _, h2 a0 a1 source destination hargs hs hd⟩
    · exact ⟨_, _, h3 a0 a1 a2 source destination hargs he hx hs hd⟩
  · intro hno
    rcases hfail with hok | hbad
    · exact absurd hok hno
    · exact hbad

/-- A run of C20: two targets give an unbound action with that source and destination;
a single argument gives a BadParameter error and leaves the heap empty. -/
theorem Copy_constructor_witness :
    ssh.Copy ssh.exampleSys [] [(ssh.Local (.str "/a")).toValue, (ssh.Remote (.str "/b")).toValue] =
      .ok 0 [{ host := .nil, source := ssh.Local (.str "/a"),
               destination := ssh.Remote (.str "/b"), client := none }] ∧
    (∃ err, ssh.Copy ssh.exampleSys [] [(ssh.Local (.str "/a")).toValue] = .fail err [] ∧
      trace.IsBadParameter err = true) :=
  ⟨(Copy_constructor ssh.exampleSys []
      [(ssh.Local (.str "/a")).toValue, (ssh.Remote (.str "/b")).toValue]).2.1
      _ _ (ssh.Local (.str "/a")) (ssh.Remote (.str "/b")) rfl rfl rfl,
   (Copy_constructor ssh.exampleSys [] [(ssh.Local (.str "/a")).toValue]).2.2.2.1
      (by
        rintro ⟨q, h1, hok⟩
        cases hok)⟩

/-! ## Running a copy action -/

namespace ssh

/-- With both sides local, the part of `Eval` behind the choice of the client evaluates
the two paths and fails. -/
theorem transfer_both_local (sys : Sys) (wire : Wire) (ctx : ExecutionContext)
    (s : CopyAction) (client : Client) (w : World)
    (hs : s.source.Local = true) (hd : s.destination.Local = true) :
    CopyAction.transfer sys wire ctx s client w =
      match sys.EvalString ctx s.source.Path w with
      | .fail err w => .fail err w
      | .noReturn why => .noReturn why
      | .ok _ w =>
        match sys.EvalString ctx s.destination.Path w with
        | .fail err w => .fail err w
        | .noReturn why => .noReturn why
        | .ok _ w =>
          .fail (trace.BadParameter "source and destination can't be both local") w := by
  unfold CopyAction.transfer
  cases sys.EvalString ctx s.source.Path w with
  | ok sourcePath w1 =>
    simp only
    cases sys.EvalString ctx s.destination.Path w1 with
    | ok destPath w2 => simp [hs, hd]
    | fail err w2 => rfl
    | noReturn why => rfl
  | fail err w1 => rfl
  | noReturn why => rfl

theorem transfer_both_local_not_ok (sys : Sys) (wire : Wire) (ctx : ExecutionContext)
    (s : CopyAction) (client : Client) (w : World)
    (hs : s.source.Local = true) (hd : s.destination.Local = true) (v : Value) (w1 : World) :
    CopyAction.transfer sys wire ctx s client w ≠ .ok v w1 := by
  rw [transfer_both_local sys wire ctx s client w hs hd]
  cases sys.EvalString ctx s.source.Path w with
  | ok sourcePath w2 =>
    simp only
    cases sys.EvalString ctx s.destination.Path w2 <;> simp
  | fail err w2 => simp
  | noReturn why => simp

theorem closeAfter_not_ok (client : Client) (r : Outcome Value)
    (hr : ∀ v w1, r ≠ .ok v w1) (v : Value) (w1 : World) :
    closeAfter client r ≠ .ok v w1 := by
  cases r with
  | ok val w2 => exact absurd rfl (hr val w2)
  | fail err w2 => simp [closeAfter]
  | noReturn why => simp [closeAfter]

end ssh

/-- C16, as the code has it: a copy action whose source and destination are both local
never runs successfully and never reaches the copy machinery, in any context: the outcome
is the same whatever creating and executing a copy command would do.  When the plugin is
initialised, the host evaluates to the empty string, a client is bound and the two paths
evaluate, the outcome is the validation error, a BadParameter error, in the world the
evaluations left: nothing is dialed and no remote command is run. -/
theorem CopyAction_Eval_both_local (sys : ssh.Sys) (wire : ssh.Wire) (ctx : ExecutionContext)
    (s : ssh.CopyAction) (w : World)
    (hs : s.source.Local = true) (hd : s.destination.Local = true) :
    (∀ (v : Value) (w1 : World), ssh.CopyAction.Eval sys wire ctx s w ≠ .ok v w1) ∧
    (∀ wire1 : ssh.Wire,
      ssh.CopyAction.Eval sys wire ctx s w = ssh.CopyAction.Eval sys wire1 ctx s w) ∧
    (∀ (plugin : ssh.Plugin) (client : ssh.Client) (sourcePath destPath : String)
        (w1 w2 w3 : World),
      sys.GetPlugin ctx = some plugin → sys.EvalString ctx s.host w = .ok "" w1 →
      s.client = some client →
      sys.EvalString ctx s.source.Path w1 = .ok sourcePath w2 →
      sys.EvalString ctx s.destination.Path w2 = .ok destPath w3 →
      ssh.CopyAction.Eval sys wire ctx s w =
        .fail (trace.BadParameter "source and destination can't be both local") w3) ∧
    trace.IsBadParameter
      (trace.BadParameter "source and destination can't be both local") = true := by
  refine ⟨?_, ?_, ?_, rfl⟩
  · intro v w1
    unfold ssh.CopyAction.Eval
    cases sys.GetPlugin ctx with
    | none => simp
    | some plugin =>
      simp only
      cases sys.EvalString ctx s.host w with
      | fail err w2 => simp
      | noReturn why => simp
      | ok host w2 =>
        simp only
        split
        · cases sys.dial ctx host plugin.ProxyJump plugin.clientConfig with
          | error err => simp
          | ok client =>
            exact ssh.closeAfter_not_ok client _
              (ssh.transfer_both_local_not_ok sys wire ctx s client _ hs hd) v w1
        · cases s.client with
          | none => simp
          | some client => exact ssh.transfer_both_local_not_ok sys wire ctx s client _ hs hd v w1
  · intro wire1
    unfold ssh.CopyAction.Eval
    simp only [ssh.transfer_both_local _ _ _ _ _ _ hs hd]
  · intro plugin client sourcePath destPath w1 w2 w3 hp hh hc hsp hdp
    unfold ssh.CopyAction.Eval
    simp only [hp, hh, hc, ssh.transfer_both_local _ _ _ _ _ _ hs hd, hsp, hdp]
    simp

/-- A run of the amended C16: a bound action without host, both sides local. -/
theorem CopyAction_Eval_both_local_witness :
    ssh.CopyAction.Eval ssh.exampleSys ssh.exampleWire emptyCtx
        { host := .nil, source := ssh.Local (.str "/a"), destination := ssh.Local (.str "/b"),
          client := some ⟨1, ⟨"root"⟩⟩ } freshWorld =
      .fail (trace.BadParameter "source and destination can't be both local") freshWorld :=
  (CopyAction_Eval_both_local ssh.exampleSys ssh.exampleWire emptyCtx
    { host := .nil, source := ssh.Local (.str "/a"), destination := ssh.Local (.str "/b"),
      client := some ⟨1, ⟨"root"⟩⟩ } freshWorld rfl rfl).2.2.1
    ⟨"", ⟨"root"⟩⟩ ⟨1, ⟨"root"⟩⟩ "/a" "/b" freshWorld freshWorld freshWorld rfl rfl rfl rfl rfl

/-- C16 as stated fails: with both sides local, a context without the plugin gives a
NotFound error, not a BadParameter error; and with a host set, the host is dialed (and the
connection closed again) before the validation error is returned. -/
theorem CopyAction_Eval_both_local_dials :
    ssh.CopyAction.Eval { ssh.exampleSys with GetPlugin := fun _ => none } ssh.exampleWire
        emptyCtx
        { host := .nil, source := ssh.Local (.str "/a"), destination := ssh.Local (.str "/b"),
          client := none } freshWorld =
      .fail (trace.NotFound "initialize ssh plugin in the setup section") freshWorld ∧
    trace.IsBadParameter (trace.NotFound "initialize ssh plugin in the setup section") =
      false ∧
    ssh.CopyAction.Eval ssh.exampleSys ssh.exampleWire emptyCtx
        { host := .expression 5 (fun _ w => .ok (.str "example.com:22") w),
          source := ssh.Local (.str "/a"), destination := ssh.Local (.str "/b"),
          client := none } freshWorld =
      .fail (trace.BadParameter "source and destination can't be both local")
        ⟨[.eval 5, .dial "example.com:22", .close 1]⟩ ∧
    Event.dial "example.com:22" ∈
      (World.mk [.eval 5, .dial "example.com:22", .close 1]).events := by
  refine ⟨rfl, rfl, rfl, by decide⟩

/-! ## Sessions -/

namespace ssh

theorem hostSequences_eq_map (actions : List Action) (hosts : List String) :
    hostSequences actions hosts = hosts.map (fun h => { host := h, actions := actions }) := by
  induction hosts with
  | nil => rfl
  | cons h hosts ih => simp [hostSequences, ih]

theorem hostSequences_hosts (actions : List Action) (hosts : List String) :
    (hostSequences actions hosts).map (·.host) = hosts := by
  induction hosts with
  | nil => rfl
  | cons h hosts ih => simp [hostSequences, ih]

end ssh

/-- C17: when the hosts of a session evaluate to the empty list, `Run` returns a
BadParameter error in the world the evaluation left, whatever `Parallel` would do: no
per-host sequence is handed over, `Parallel` is not invoked and nothing is dialed.  When
the evaluation of the hosts fails, `Run` returns that error and likewise runs nothing. -/
theorem SessionAction_Run_no_hosts (sys : ssh.Sys) (s : ssh.SessionAction)
    (ctx : ExecutionContext) (w : World) :
    (∀ w1 : World, s.hosts.Eval ctx (w.record (.eval s.hosts.id)) = .ok [] w1 →
      ssh.SessionAction.Run sys s ctx w =
        .fail (trace.BadParameter "ssh.Sequence needs at least one host") w1) ∧
    (∀ (err : Error) (w1 : World),
      s.hosts.Eval ctx (w.record (.eval s.hosts.id)) = .fail err w1 →
      ssh.SessionAction.Run sys s ctx w = .fail err w1) ∧
    trace.IsBadParameter (trace.BadParameter "ssh.Sequence needs at least one host") = true := by
  refine ⟨?_, ?_, rfl⟩
  · intro w1 h
    simp [ssh.SessionAction.Run, h]
  · intro err w1 h
    simp [ssh.SessionAction.Run, h, trace.Wrap]

/-- A run of C17: no hosts; `Parallel`, which would record a dial, is not invoked. -/
theorem SessionAction_Run_no_hosts_witness :
    ssh.SessionAction.Run
        { ssh.exampleSys with
          Parallel := fun _ _ w => .ok () (w.record (.dial "never")) }
        (ssh.Session ⟨8, fun _ w => .ok [] w⟩ [.copy 0]) emptyCtx freshWorld =
      .fail (trace.BadParameter "ssh.Sequence needs at least one host") ⟨[.eval 8]⟩ :=
  (SessionAction_Run_no_hosts
    { ssh.exampleSys with Parallel := fun _ _ w => .ok () (w.record (.dial "never")) }
    (ssh.Session ⟨8, fun _ w => .ok [] w⟩ [.copy 0]) emptyCtx freshWorld).1 ⟨[.eval 8]⟩ rfl

/-- C18: when the hosts of a session with template actions `A` evaluate to a non-empty
list `hs`, `Run` builds one per-host sequence per host, as many as `hs` has elements, the
i-th with the host `hs[i]` and the actions `A`, hands exactly these over, in host order,
to one `Parallel`, and returns what that `Parallel` returns. -/
theorem SessionAction_Run_hosts (sys : ssh.Sys) (s : ssh.SessionAction)
    (ctx : ExecutionContext) (w w1 : World) (hs : List String)
    (hne : hs ≠ [])
    (hev : s.hosts.Eval ctx (w.record (.eval s.hosts.id)) = .ok hs w1) :
    ssh.SessionAction.Run sys s ctx w =
      sys.Parallel (ssh.hostSequences s.actions hs) ctx (w1.record (.parallel hs)) ∧
    (ssh.hostSequences s.actions hs).length = hs.length ∧
    (∀ (i : Nat) (hi : i < hs.length),
      (ssh.hostSequences s.actions hs)[i]? =
        some { host := hs.get ⟨i, hi⟩, actions := s.actions }) ∧
    ssh.hostSequences s.actions hs =
      hs.map (fun h => { host := h, actions := s.actions }) := by
  have hlen : ¬ hs.length = 0 := by
    intro h0
    exact hne (List.length_eq_zero.mp h0)
  refine ⟨?_, by simp [ssh.hostSequences_eq_map], ?_, ssh.hostSequences_eq_map _ _⟩
  · simp [ssh.SessionAction.Run, hev, hlen, ssh.hostSequences_hosts]
  · intro i hi
    rw [ssh.hostSequences_eq_map]
    simp [List.getElem?_map, List.getElem?_eq_getElem hi]

/-- A run of C18: the hosts `h1` and `h2` with one template action give two per-host
sequences, which one `Parallel` receives. -/
theorem SessionAction_Run_hosts_witness :
    ssh.SessionAction.Run ssh.exampleSys
        (ssh.Session ⟨8, fun _ w => .ok ["h1", "h2"] w⟩ [.copy 0]) emptyCtx freshWorld =
      .ok () ⟨[.eval 8, .parallel ["h1", "h2"]]⟩ ∧
    ssh.hostSequences [.copy 0] ["h1", "h2"] = [⟨"h1", [.copy 0]⟩, ⟨"h2", [.copy 0]⟩] ∧
    (ssh.hostSequences [ssh.Action.copy 0] ["h1", "h2"]).length = 2 :=
  ⟨(SessionAction_Run_hosts ssh.exampleSys
      (ssh.Session ⟨8, fun _ w => .ok ["h1", "h2"] w⟩ [.copy 0]) emptyCtx freshWorld
      ⟨[.eval 8]⟩ ["h1", "h2"] (by decide) rfl).1,
   by decide, by decide⟩

/-! ## The final error of `ExecuteSCP` -/

namespace ssh

/-- Once the session and its pipes are set up, `ExecuteSCP` returns no error exactly when
the error of the remote command is nil or an end of stream and the error of the protocol
handler is nil or an end of stream, and the remote command has been run. -/
theorem ExecuteSCP_final_error (remote : Connection) (cmd : scp.Command) (w : World)
    (shellCmd : String) (hcmd : cmd.GetRemoteShellCmd = .ok shellCmd)
    (h1 : remote.NewSession = none) (h2 : remote.StdinPipe = none)
    (h3 : remote.StdoutPipe = none) :
    ((ExecuteSCP remote cmd w).1 = none ↔
      (remote.Run shellCmd = none ∨ trace.IsEOF (remote.Run shellCmd) = true) ∧
      (cmd.Execute = none ∨ trace.IsEOF cmd.Execute = true)) ∧
    (ExecuteSCP remote cmd w).2 = w.record (.remoteCmd shellCmd) := by
  unfold ExecuteSCP
  simp only [hcmd, h1, h2, h3]
  refine ⟨?_, trivial⟩
  cases hr : remote.Run shellCmd with
  | none =>
    cases hp : cmd.Execute with
    | none => simp [trace.IsEOF]
    | some e =>
      by_cases he : e.kind = .eof <;> simp [trace.IsEOF, he, trace.Wrap]
  | some r =>
    cases hp : cmd.Execute with
    | none =>
      by_cases hre : r.kind = .eof <;> simp [trace.IsEOF, hre, trace.Wrap]
    | some e =>
      by_cases he : e.kind = .eof <;> by_cases hre : r.kind = .eof <;>
        simp [trace.IsEOF, he, hre, trace.Wrap]

end ssh

/-- C19 at the failing input: the session is set up, the protocol handler returns no error
and the remote command returns an end-of-stream error; `ExecuteSCP` runs the command and
returns no error. -/
theorem ExecuteSCP_swallows_eof_run_error :
    ssh.ExecuteSCP
        { NewSession := none, StdinPipe := none, StdoutPipe := none,
          Run := fun _ => some ⟨.eof, "EOF"⟩ }
        { GetRemoteShellCmd := .ok "scp -t /b", Execute := none } freshWorld =
      (none, ⟨[.remoteCmd "scp -t /b"]⟩) ∧
    ssh.ExecuteSCP
        { NewSession := none, StdinPipe := none, StdoutPipe := none,
          Run := fun _ => some ⟨.eof, "EOF"⟩ }
        { GetRemoteShellCmd := .ok "scp -t /b", Execute := some ⟨.eof, "EOF"⟩ } freshWorld =
      (none, ⟨[.remoteCmd "scp -t /b"]⟩) ∧
    ssh.ExecuteSCP
        { NewSession := none, StdinPipe := none, StdoutPipe := none,
          Run := fun _ => some ⟨.other, "exit status 1"⟩ }
        { GetRemoteShellCmd := .ok "scp -t /b", Execute := none } freshWorld =
      (some ⟨.other, "exit status 1"⟩, ⟨[.remoteCmd "scp -t /b"]⟩) := by
  refine ⟨by decide, by decide, by decide⟩

/-! ## The code of a copy action -/

namespace ssh

/-- What `CopyAction.MarshalCode` returns: the call of `Copy` on the texts of the source
and of the destination. -/
theorem CopyAction_MarshalCode_eq (sys : Sys) (rec : MarshalFn) (ctx : ExecutionContext)
    (s : CopyAction) (w : World) :
    CopyAction.MarshalCode sys rec ctx s w =
      match marshalEach rec ctx [s.source.toValue, s.destination.toValue] w with
      | .ok texts w =>
        .ok ((if sys.Key = "" ∨ sys.Key = "." then "" else sys.Key ++ ".") ++ "Copy" ++ "(" ++
          ", ".intercalate texts ++ ")") w
      | .fail err w => .fail err w
      | .noReturn why => .noReturn why := by
  have hsym : FunctionName (.func CopySymbol) = some "Copy" := by decide
  unfold CopyAction.MarshalCode
  rw [FnCall_MarshalCode_eq rec ctx _ w "Copy" (by simpa using hsym)]
  rfl

theorem getElem?_append_new (h : Heap) (c : CopyAction) : (h ++ [c])[h.length]? = some c := by
  simp

end ssh

/-- C21: `CopyAction.MarshalCode` depends on the source and the destination only: two copy
actions with the same source and the same destination marshal to the same outcome in the
same context and world, whatever their hosts and clients are, also when boxed and handed
to `MarshalCode`.  When it renders, the text is the call of `Copy` with two arguments, the
text of the source and the text of the destination.  So the action that `Copy(host,
source, destination)` builds marshals like the one `Copy(source, destination)` builds,
although the first carries the host and the second none. -/
theorem CopyAction_MarshalCode_source_destination (sys : ssh.Sys) (env : Env) (fuel : Nat)
    (ctx : ExecutionContext) (w : World) (s1 s2 : ssh.CopyAction)
    (hs : s1.source = s2.source) (hd : s1.destination = s2.destination) :
    ssh.CopyAction.MarshalCode sys (MarshalCode env fuel) ctx s1 w =
      ssh.CopyAction.MarshalCode sys (MarshalCode env fuel) ctx s2 w ∧
    (∀ (wire1 wire2 : ssh.Wire) (id k : Nat),
      MarshalCode env (k + 1) ctx
          (ssh.CopyAction.toValue sys wire1 (MarshalCode env fuel) id s1) w =
        MarshalCode env (k + 1) ctx
          (ssh.CopyAction.toValue sys wire2 (MarshalCode env fuel) id s2) w) ∧
    (∀ (data : String) (w1 : World),
      ssh.CopyAction.MarshalCode sys (MarshalCode env fuel) ctx s1 w = .ok data w1 →
      ∃ source destination : String,
        marshalEach (MarshalCode env fuel) ctx
            [s1.source.toValue, s1.destination.toValue] w = .ok [source, destination] w1 ∧
        data = (if sys.Key = "" ∨ sys.Key = "." then "" else sys.Key ++ ".") ++ "Copy" ++
          "(" ++ source ++ ", " ++ destination ++ ")") ∧
    (∀ (h h3 h2 : ssh.Heap) (host a1 a2 : Value) (q3 q2 : Nat),
      ssh.Copy sys h [host, a1, a2] = .ok q3 h3 → ssh.Copy sys h [a1, a2] = .ok q2 h2 →
      ∃ c3 c2 : ssh.CopyAction,
        h3[q3]? = some c3 ∧ h2[q2]? = some c2 ∧ c3.host = host ∧ c2.host = .nil ∧
        ssh.CopyAction.MarshalCode sys (MarshalCode env fuel) ctx c3 w =
          ssh.CopyAction.MarshalCode sys (MarshalCode env fuel) ctx c2 w) := by
  have hsame : ∀ a b : ssh.CopyAction, a.source = b.source → a.destination = b.destination →
      ssh.CopyAction.MarshalCode sys (MarshalCode env fuel) ctx a w =
        ssh.CopyAction.MarshalCode sys (MarshalCode env fuel) ctx b w := by
    intro a b h1 h2
    unfold ssh.CopyAction.MarshalCode
    rw [h1, h2]
  refine ⟨hsame s1 s2 hs hd, ?_, ?_, ?_⟩
  · intro wire1 wire2 id k
    show ssh.CopyAction.MarshalCode sys (MarshalCode env fuel) ctx s1 _ =
      ssh.CopyAction.MarshalCode sys (MarshalCode env fuel) ctx s2 _
    unfold ssh.CopyAction.MarshalCode
    rw [hs, hd]
  · intro data w1 hok
    rw [ssh.CopyAction_MarshalCode_eq] at hok
    split at hok
    · rename_i texts w2 he
      have hlen := marshalEach_length _ _ _ _ _ _ he
      obtain ⟨source, destination, rfl⟩ := List.length_eq_two.mp hlen
      simp only [Outcome.ok.injEq] at hok
      obtain ⟨hdata, hw⟩ := hok
      subst hw
      refine ⟨source, destination, he, ?_⟩
      rw [← hdata]
      simp [String.intercalate, String.intercalate.go, String.append_assoc]
    · cases hok
    · cases hok
  · intro h h3 h2 host a1 a2 q3 q2 hc3 hc2
    rw [ssh.Copy_three] at hc3
    rw [ssh.Copy_two] at hc2
    cases he : host.isExpression
    · rw [he] at hc3
      simp at hc3
    · rw [he] at hc3
      simp only [Bool.true_eq_false, if_false] at hc3
      cases hx : sys.ExpectString host <;> cases h1 : ssh.Target.ofValue a1 <;>
        cases h2' : ssh.Target.ofValue a2 <;> rw [hx, h1, h2'] at hc3 <;> cases hc3
      rw [h1, h2'] at hc2
      cases hc2
      exact ⟨_, _, ssh.getElem?_append_new h _, ssh.getElem?_append_new h _, rfl, rfl,
        hsame _ _ rfl rfl⟩

/-- A run of C21: the action built with a host and the action built without one marshal
to the same text, in which the host does not occur. -/
theorem CopyAction_MarshalCode_source_destination_witness :
    ssh.CopyAction.MarshalCode ssh.exampleSys (MarshalCode exampleEnv 3) emptyCtx
        { host := .expression 5 (fun _ w => .ok (.str "example.com:22") w),
          source := ssh.Local (.expression 3 (fun _ w => .ok (.str "/a") w)),
          destination := ssh.Remote (.expression 4 (fun _ w => .ok (.str "/b") w)),
          client := some ⟨1, ⟨"root"⟩⟩ } freshWorld =
      ssh.CopyAction.MarshalCode ssh.exampleSys (MarshalCode exampleEnv 3) emptyCtx
        { host := .nil,
          source := ssh.Local (.expression 3 (fun _ w => .ok (.str "/a") w)),
          destination := ssh.Remote (.expression 4 (fun _ w => .ok (.str "/b") w)),
          client := none } freshWorld ∧
    ssh.CopyAction.MarshalCode ssh.exampleSys (MarshalCode exampleEnv 3) emptyCtx
        { host := .nil,
          source := ssh.Local (.expression 3 (fun _ w => .ok (.str "/a") w)),
          destination := ssh.Remote (.expression 4 (fun _ w => .ok (.str "/b") w)),
          client := none } freshWorld =
      .ok ("ssh.Copy(ssh.Target\x7bLocal:true,Path:\"/a\"\x7d, " ++
          "ssh.Target\x7bLocal:false,Path:\"/b\"\x7d)")
        ⟨[.eval 3, .eval 4]⟩ :=
  ⟨(CopyAction_MarshalCode_source_destination ssh.exampleSys exampleEnv 3 emptyCtx freshWorld
      { host := .expression 5 (fun _ w => .ok (.str "example.com:22") w),
        source := ssh.Local (.expression 3 (fun _ w => .ok (.str "/a") w)),
        destination := ssh.Remote (.expression 4 (fun _ w => .ok (.str "/b") w)),
        client := some ⟨1, ⟨"root"⟩⟩ }
      { host := .nil,
        source := ssh.Local (.expression 3 (fun _ w => .ok (.str "/a") w)),
        destination := ssh.Remote (.expression 4 (fun _ w => .ok (.str "/b") w)),
        client := none } rfl rfl).1,
   by decide⟩

end Force
